import Mathlib

/-!
Verification of the color-binning / LUT pipeline of the repository
(`scrapbook/color-distance-tests/*.py`, `scrapbook/color_recognition/*.py`).

The Python scripts are shallowly embedded over exact rationals: every float
value a Python run manipulates is a rational number, so functions that only
use `+ - * / // floor min max` are embedded as functions on `ℚ`. For claims
that do not depend on the values of the irrational primitives (`x ** 2.4`
gamma curve, cube root `x ** (1/3)`), those primitives are passed as
abstract function parameters; the sRGB↔Lab round-trip claim, which does
depend on them, is embedded over `ℝ` with the primitives as `Real.rpow`
powers.
-/

set_option maxRecDepth 4000

namespace ColorPipeline

/-! Fixed-step Lab bin index.
`calculate_probabilities.calculate_lab_index` (and the identical inline code
of `texture/build_texture.py`, lines 134-147):

    L_bin = int(L // 5); A_bin = int(A // 5) + 21; B_bin = int(B // 5) + 21
    L_bin = max(0, min(19, L_bin)); A_bin = max(0, min(41, A_bin));
    B_bin = max(0, min(41, B_bin))
    index = L_bin + 20 * A_bin + 20 * 42 * B_bin

Python `int(x // 5)` on a float is the mathematical floor of `x / 5`. -/

def calculate_lab_index (L A B : ℚ) : ℤ :=
  max 0 (min 19 ⌊L / 5⌋) + 20 * max 0 (min 41 (⌊A / 5⌋ + 21)) +
    20 * 42 * max 0 (min 41 (⌊B / 5⌋ + 21))

/-- The fixed-step composite index exactly as the spec words it:
`floor(L/5)` clamped to `[0,19]`, `floor(A/5)+21` clamped to `[0,41]`,
`floor(B/5)+21` clamped to `[0,41]`, composite `L_bin + 20*A_bin + 20*42*B_bin`. -/
def specClamp (lo hi v : ℤ) : ℤ := min hi (max lo v)

def specFixedStepIndex (L A B : ℚ) : ℤ :=
  specClamp 0 19 ⌊L / 5⌋ + 20 * specClamp 0 41 (⌊A / 5⌋ + 21) +
    20 * 42 * specClamp 0 41 (⌊B / 5⌋ + 21)

/-! Uniform-cube Lab bin index.
`generate_textures.lab_bin_index` (and the identical function of
`generate_bins.py`):

    L_norm = L / 100; a_norm = (a + 128) / 255; b_norm = (b + 128) / 255
    L_bin = np.clip(floor(L_norm * bins), 0, bins - 1)   (same for a, b)
    return L_bin + a_bin * bins + b_bin * bins**2

`np.clip(v, lo, hi)` is `min hi (max lo v)` (the upper bound is applied
last, so for `bins = 0` it returns `-1`, as numpy does). -/

def lab_bin_index (L a b : ℚ) (bins : ℕ) : ℤ :=
  min ((bins : ℤ) - 1) (max 0 ⌊L / 100 * (bins : ℚ)⌋) +
    min ((bins : ℤ) - 1) (max 0 ⌊(a + 128) / 255 * (bins : ℚ)⌋) * (bins : ℤ) +
    min ((bins : ℤ) - 1) (max 0 ⌊(b + 128) / 255 * (bins : ℚ)⌋) * (bins : ℤ) ^ 2

/-- Uniform-cube bin index of a Lab triple. -/
def labBinIndexOf (lab : ℚ × ℚ × ℚ) (bins : ℕ) : ℤ :=
  lab_bin_index lab.1 lab.2.1 lab.2.2 bins

theorem lab_bin_index_nonneg (L a b : ℚ) (bins : ℕ) (hb : 1 ≤ bins) :
    0 ≤ lab_bin_index L a b bins := by
  unfold lab_bin_index
  have hb1 : (1 : ℤ) ≤ (bins : ℤ) := by exact_mod_cast hb
  set x := min ((bins : ℤ) - 1) (max 0 ⌊L / 100 * (bins : ℚ)⌋) with hx
  set y := min ((bins : ℤ) - 1) (max 0 ⌊(a + 128) / 255 * (bins : ℚ)⌋) with hy
  set z := min ((bins : ℤ) - 1) (max 0 ⌊(b + 128) / 255 * (bins : ℚ)⌋) with hz
  have hx0 : 0 ≤ x := le_min (by omega) (le_max_left _ _)
  have hy0 : 0 ≤ y := le_min (by omega) (le_max_left _ _)
  have hz0 : 0 ≤ z := le_min (by omega) (le_max_left _ _)
  have hsq : (0 : ℤ) ≤ (bins : ℤ) ^ 2 := sq_nonneg _
  nlinarith

theorem lab_bin_index_lt (L a b : ℚ) (bins : ℕ) (hb : 1 ≤ bins) :
    lab_bin_index L a b bins < (bins : ℤ) ^ 3 := by
  unfold lab_bin_index
  have hb1 : (1 : ℤ) ≤ (bins : ℤ) := by exact_mod_cast hb
  set x := min ((bins : ℤ) - 1) (max 0 ⌊L / 100 * (bins : ℚ)⌋) with hx
  set y := min ((bins : ℤ) - 1) (max 0 ⌊(a + 128) / 255 * (bins : ℚ)⌋) with hy
  set z := min ((bins : ℤ) - 1) (max 0 ⌊(b + 128) / 255 * (bins : ℚ)⌋) with hz
  have hxu : x ≤ (bins : ℤ) - 1 := min_le_left _ _
  have hyu : y ≤ (bins : ℤ) - 1 := min_le_left _ _
  have hzu : z ≤ (bins : ℤ) - 1 := min_le_left _ _
  have hx0 : 0 ≤ x := le_min (by omega) (le_max_left _ _)
  have hy0 : 0 ≤ y := le_min (by omega) (le_max_left _ _)
  have hz0 : 0 ≤ z := le_min (by omega) (le_max_left _ _)
  nlinarith [sq_nonneg ((bins : ℤ)), mul_le_mul_of_nonneg_right hyu (by omega : (0:ℤ) ≤ (bins:ℤ)),
    mul_le_mul_of_nonneg_right hzu (sq_nonneg ((bins : ℤ)))]

/-- C1: for every Lab triple (in particular the Lab conversion of every RGB
byte triple — every value a float computation can produce is rational), the
fixed-step bin index computed by `calculate_lab_index` equals the spec's
closed form `L_bin + 20*A_bin + 20*42*B_bin` with the stated clamps, and the
resulting index always lies in `[0, 35280)`. -/
theorem fixedStepIndex_matches_spec_and_in_range (L A B : ℚ) :
    calculate_lab_index L A B = specFixedStepIndex L A B ∧
      0 ≤ calculate_lab_index L A B ∧ calculate_lab_index L A B < 35280 := by
  unfold calculate_lab_index specFixedStepIndex specClamp
  refine ⟨by omega, by omega, by omega⟩

/-- C3: under the uniform-cube scheme, every one of the 16,777,216 RGB lattice
points (given by its Lab conversion `lab p`, an arbitrary rational triple)
falls in exactly one bin bucket: the composite index is always in
`[0, bins³)`, each point satisfies the bucket membership predicate of exactly
one bin, and the bucket sizes sum to 16,777,216. -/
theorem uniformCube_partition (bins : ℕ) (hb : 1 ≤ bins)
    (lab : Fin 16777216 → ℚ × ℚ × ℚ) :
    (∀ p, 0 ≤ labBinIndexOf (lab p) bins ∧ labBinIndexOf (lab p) bins < (bins : ℤ) ^ 3) ∧
      (∀ p, ∃! j : ℕ, j < bins ^ 3 ∧ labBinIndexOf (lab p) bins = (j : ℤ)) ∧
      (∑ j ∈ Finset.range (bins ^ 3),
          (Finset.univ.filter fun p : Fin 16777216 =>
            labBinIndexOf (lab p) bins = (j : ℤ)).card) = 16777216 := by
  have hcast : ((bins ^ 3 : ℕ) : ℤ) = (bins : ℤ) ^ 3 := by push_cast; ring
  have hrange : ∀ p : Fin 16777216,
      0 ≤ labBinIndexOf (lab p) bins ∧ labBinIndexOf (lab p) bins < (bins : ℤ) ^ 3 := by
    intro p
    exact ⟨lab_bin_index_nonneg _ _ _ _ hb, lab_bin_index_lt _ _ _ _ hb⟩
  refine ⟨hrange, ?_, ?_⟩
  · intro p
    obtain ⟨h0, hlt⟩ := hrange p
    rw [← hcast] at hlt
    refine ⟨(labBinIndexOf (lab p) bins).toNat, ⟨by omega, by omega⟩, ?_⟩
    intro j hj
    obtain ⟨hjlt, hjeq⟩ := hj
    omega
  · have hmem : ∀ p : Fin 16777216, p ∈ Finset.univ →
        (labBinIndexOf (lab p) bins).toNat ∈ Finset.range (bins ^ 3) := by
      intro p _
      obtain ⟨h0, hlt⟩ := hrange p
      rw [← hcast] at hlt
      rw [Finset.mem_range]
      omega
    have key := Finset.card_eq_sum_card_fiberwise hmem
    have hfix : ∀ j ∈ Finset.range (bins ^ 3),
        (Finset.univ.filter fun p : Fin 16777216 =>
            labBinIndexOf (lab p) bins = (j : ℤ)).card
          = (Finset.univ.filter fun p : Fin 16777216 =>
              (labBinIndexOf (lab p) bins).toNat = j).card := by
      intro j _
      have hpq : ∀ p : Fin 16777216, p ∈ Finset.univ →
          (labBinIndexOf (lab p) bins = (j : ℤ) ↔ (labBinIndexOf (lab p) bins).toNat = j) := by
        intro p _
        obtain ⟨h0, _⟩ := hrange p
        constructor
        · intro h; omega
        · intro h; omega
      rw [Finset.filter_congr hpq]
    rw [Finset.sum_congr rfl hfix, ← key, Finset.card_univ, Fintype.card_fin]

/-- Witness for C3 at `bins = 3` with a concrete Lab assignment. -/
theorem uniformCube_partition_witness :
    1 ≤ 3 ∧
      ((∀ p, 0 ≤ labBinIndexOf ((fun _ : Fin 16777216 => ((0 : ℚ), (0 : ℚ), (0 : ℚ))) p) 3 ∧
          labBinIndexOf ((fun _ : Fin 16777216 => ((0 : ℚ), (0 : ℚ), (0 : ℚ))) p) 3 < (3 : ℤ) ^ 3) ∧
        (∀ p, ∃! j : ℕ, j < 3 ^ 3 ∧
          labBinIndexOf ((fun _ : Fin 16777216 => ((0 : ℚ), (0 : ℚ), (0 : ℚ))) p) 3 = (j : ℤ)) ∧
        (∑ j ∈ Finset.range (3 ^ 3),
            (Finset.univ.filter fun p : Fin 16777216 =>
              labBinIndexOf ((fun _ : Fin 16777216 => ((0 : ℚ), (0 : ℚ), (0 : ℚ))) p) 3
                = (j : ℤ)).card) = 16777216) :=
  ⟨by decide, uniformCube_partition 3 (by decide) (fun _ => ((0 : ℚ), (0 : ℚ), (0 : ℚ)))⟩

/-! Representative aggregation.
`generate_textures.compute_bin_representatives` stores, for every RGB lattice
point, a dict `{rgb, L, a, b}` (RGB scaled to `[0,1]`, Lab floats). -/

/-- One enumerated gamut point as stored in a bin bucket. -/
structure LabPoint where
  rgb : ℚ × ℚ × ℚ
  L : ℚ
  a : ℚ
  b : ℚ
deriving DecidableEq

/-- Python `min(points, key=f)`: fold keeping the current best, replacing it
only on a strictly smaller key, so the first minimum wins ties. -/
def pyMinBy (f : LabPoint → ℚ) (p : LabPoint) (ps : List LabPoint) : LabPoint :=
  ps.foldl (fun best q => if f q < f best then q else best) p

/-- Python `max(points, key=f)`: replace only on a strictly larger key. -/
def pyMaxBy (f : LabPoint → ℚ) (p : LabPoint) (ps : List LabPoint) : LabPoint :=
  ps.foldl (fun best q => if f q > f best then q else best) p

theorem pyMinBy_first_min (f : LabPoint → ℚ) (p : LabPoint) (ps : List LabPoint) :
    ∃ pre post, p :: ps = pre ++ pyMinBy f p ps :: post ∧
      (∀ q ∈ p :: ps, f (pyMinBy f p ps) ≤ f q) ∧
      ∀ q ∈ pre, f (pyMinBy f p ps) < f q := by
  induction ps generalizing p with
  | nil =>
    refine ⟨[], [], rfl, ?_, by simp⟩
    intro q hq
    rcases List.mem_cons.mp hq with h | h
    · subst h; exact le_refl _
    · simp at h
  | cons q ps ih =>
    have hstep : pyMinBy f p (q :: ps) = pyMinBy f (if f q < f p then q else p) ps := rfl
    by_cases hq : f q < f p
    · obtain ⟨pre, post, heq, hmin, hpre⟩ := ih q
      rw [hstep, if_pos hq]
      have hmq : f (pyMinBy f q ps) ≤ f q := hmin q (List.mem_cons_self _ _)
      refine ⟨p :: pre, post, by rw [List.cons_append, ← heq], ?_, ?_⟩
      · intro r hr
        rcases List.mem_cons.mp hr with h | h
        · subst h; linarith
        · exact hmin r h
      · intro r hr
        rcases List.mem_cons.mp hr with h | h
        · subst h; linarith
        · exact hpre r h
    · obtain ⟨pre, post, heq, hmin, hpre⟩ := ih p
      rw [hstep, if_neg hq]
      have hpq : f p ≤ f q := le_of_not_lt hq
      cases pre with
      | nil =>
        simp only [List.nil_append, List.cons.injEq] at heq
        obtain ⟨hpm, hpost⟩ := heq
        refine ⟨[], q :: ps, ?_, ?_, by simp⟩
        · rw [List.nil_append, ← hpm]
        · intro r hr
          rcases List.mem_cons.mp hr with h | h
          · subst h; rw [← hpm]
          · rcases List.mem_cons.mp h with h2 | h2
            · subst h2; rw [← hpm]; exact hpq
            · exact hmin r (List.mem_cons_of_mem _ h2)
      | cons x pre2 =>
        simp only [List.cons_append, List.cons.injEq] at heq
        obtain ⟨hpx, hps⟩ := heq
        have hmp : f (pyMinBy f p ps) < f p := by
          have := hpre x (List.mem_cons_self _ _)
          rwa [← hpx] at this
        refine ⟨p :: q :: pre2, post, ?_, ?_, ?_⟩
        · rw [List.cons_append, List.cons_append, ← hps]
        · intro r hr
          rcases List.mem_cons.mp hr with h | h
          · subst h; exact le_of_lt hmp
          · rcases List.mem_cons.mp h with h2 | h2
            · subst h2; linarith
            · exact hmin r (List.mem_cons_of_mem _ h2)
        · intro r hr
          rcases List.mem_cons.mp hr with h | h
          · subst h; exact hmp
          · rcases List.mem_cons.mp h with h2 | h2
            · subst h2; linarith
            · exact hpre r (List.mem_cons_of_mem _ h2)

theorem pyMaxBy_eq_pyMinBy_neg (f : LabPoint → ℚ) (p : LabPoint) (ps : List LabPoint) :
    pyMaxBy f p ps = pyMinBy (fun x => -(f x)) p ps := by
  induction ps generalizing p with
  | nil => rfl
  | cons q ps ih =>
    have hcond : (f q > f p) = (-(f q) < -(f p)) := by
      apply propext
      constructor <;> intro h <;> linarith
    show List.foldl _ (if f q > f p then q else p) ps
        = List.foldl _ (if -(f q) < -(f p) then q else p) ps
    rw [show (if f q > f p then q else p) = (if -(f q) < -(f p) then q else p) by
      simp only [hcond]]
    exact ih _

theorem pyMaxBy_first_max (f : LabPoint → ℚ) (p : LabPoint) (ps : List LabPoint) :
    ∃ pre post, p :: ps = pre ++ pyMaxBy f p ps :: post ∧
      (∀ q ∈ p :: ps, f q ≤ f (pyMaxBy f p ps)) ∧
      ∀ q ∈ pre, f q < f (pyMaxBy f p ps) := by
  rw [pyMaxBy_eq_pyMinBy_neg]
  obtain ⟨pre, post, heq, hmin, hpre⟩ := pyMinBy_first_min (fun x => -(f x)) p ps
  refine ⟨pre, post, heq, ?_, ?_⟩
  · intro r hr
    have := hmin r hr
    linarith
  · intro r hr
    have := hpre r hr
    linarith

/-- The per-bin body of `compute_bin_representatives` (lines 342-372): empty
buckets keep the white default `(1,1,1)`; `average` converts the mean Lab of
the bucket back to RGB with `lab_to_rgb` (abstracted as `ltr`); `darkest` /
`brightest` take Python `min` / `max` by the `L` key; any other method name
raises `ValueError`. -/
def representativeForBin (ltr : ℚ × ℚ × ℚ → ℚ × ℚ × ℚ) (method : String)
    (points : List LabPoint) : Except String (ℚ × ℚ × ℚ) :=
  match points with
  | [] => .ok (1, 1, 1)
  | p :: ps =>
    if method = "average" then
      .ok (ltr (((p :: ps).map LabPoint.L).sum / (((p :: ps).length : ℚ)),
                ((p :: ps).map LabPoint.a).sum / (((p :: ps).length : ℚ)),
                ((p :: ps).map LabPoint.b).sum / (((p :: ps).length : ℚ))))
    else if method = "darkest" then .ok (pyMinBy LabPoint.L p ps).rgb
    else if method = "brightest" then .ok (pyMaxBy LabPoint.L p ps).rgb
    else .error ("Unknown method: " ++ method)

/-- C4: on a non-empty bucket, `darkest` returns the RGB of the first point
attaining the minimal Lab `L` (everything strictly earlier in enumeration
order has strictly larger `L`), `brightest` dually, and `average` returns
`lab_to_rgb` of the arithmetic mean of the bucket's Lab triples (not a mean
of RGB values). -/
theorem representative_policies (ltr : ℚ × ℚ × ℚ → ℚ × ℚ × ℚ)
    (pts : List LabPoint) (h : pts ≠ []) :
    (∃ m pre post, representativeForBin ltr "darkest" pts = .ok m.rgb ∧
      pts = pre ++ m :: post ∧ (∀ q ∈ pts, m.L ≤ q.L) ∧ ∀ q ∈ pre, m.L < q.L) ∧
    (∃ m pre post, representativeForBin ltr "brightest" pts = .ok m.rgb ∧
      pts = pre ++ m :: post ∧ (∀ q ∈ pts, q.L ≤ m.L) ∧ ∀ q ∈ pre, q.L < m.L) ∧
    representativeForBin ltr "average" pts =
      .ok (ltr ((pts.map LabPoint.L).sum / ((pts.length : ℚ)),
                (pts.map LabPoint.a).sum / ((pts.length : ℚ)),
                (pts.map LabPoint.b).sum / ((pts.length : ℚ)))) := by
  match pts, h with
  | p :: ps, _ =>
    refine ⟨?_, ?_, ?_⟩
    · obtain ⟨pre, post, heq, hmin, hpre⟩ := pyMinBy_first_min LabPoint.L p ps
      exact ⟨pyMinBy LabPoint.L p ps, pre, post, by simp [representativeForBin],
        heq, hmin, hpre⟩
    · obtain ⟨pre, post, heq, hmax, hpre⟩ := pyMaxBy_first_max LabPoint.L p ps
      exact ⟨pyMaxBy LabPoint.L p ps, pre, post, by simp [representativeForBin],
        heq, hmax, hpre⟩
    · simp [representativeForBin]

/-- Concrete two-point bucket used to witness C4: a dark and a bright point. -/
def sampleBucket : List LabPoint :=
  [⟨(10/255, 10/255, 10/255), 3, 1, 2⟩, ⟨(200/255, 200/255, 200/255), 80, 5, 6⟩]

/-- Witness for C4 on `sampleBucket` with the Lab→RGB conversion abstracted
as the identity. -/
theorem representative_policies_witness :
    sampleBucket ≠ [] ∧
      ((∃ m pre post, representativeForBin id "darkest" sampleBucket = .ok m.rgb ∧
        sampleBucket = pre ++ m :: post ∧ (∀ q ∈ sampleBucket, m.L ≤ q.L) ∧
        ∀ q ∈ pre, m.L < q.L) ∧
      (∃ m pre post, representativeForBin id "brightest" sampleBucket = .ok m.rgb ∧
        sampleBucket = pre ++ m :: post ∧ (∀ q ∈ sampleBucket, q.L ≤ m.L) ∧
        ∀ q ∈ pre, q.L < m.L) ∧
      representativeForBin id "average" sampleBucket =
        .ok (id ((sampleBucket.map LabPoint.L).sum / ((sampleBucket.length : ℚ)),
                  (sampleBucket.map LabPoint.a).sum / ((sampleBucket.length : ℚ)),
                  (sampleBucket.map LabPoint.b).sum / ((sampleBucket.length : ℚ))))) :=
  ⟨by simp [sampleBucket], representative_policies id sampleBucket (by simp [sampleBucket])⟩

/-! Batched gamut enumeration.
`compute_bin_representatives` walks the 256³ lattice in contiguous slices
`[k*batch_size, min((k+1)*batch_size, N))` of the row-major enumeration and
appends each slice's points to their buckets in order. -/

/-- Split a list into contiguous batches of size `B` (the final batch may be
shorter). `B = 0` never occurs in the scripts (`batch_size = 100000`); it is
mapped to a single batch so the function totalizes. -/
def chunks {α : Type} (B : ℕ) : List α → List (List α)
  | [] => []
  | x :: xs =>
    if h : B = 0 then [x :: xs]
    else (x :: xs).take B :: chunks B ((x :: xs).drop B)
termination_by l => l.length
decreasing_by
  simp only [List.length_drop, List.length_cons]
  omega

theorem chunks_flatten_aux {α : Type} (B n : ℕ) :
    ∀ l : List α, l.length ≤ n → (chunks B l).flatten = l := by
  induction n with
  | zero =>
    intro l hl
    cases l with
    | nil => simp [chunks]
    | cons x xs => simp at hl
  | succ n ih =>
    intro l hl
    cases l with
    | nil => simp [chunks]
    | cons x xs =>
      rw [chunks]
      split
      · simp
      · rename_i hB
        rw [List.flatten_cons, ih ((x :: xs).drop B) ?_, List.take_append_drop]
        simp only [List.length_drop, List.length_cons]
        simp only [List.length_cons] at hl
        omega

theorem chunks_flatten {α : Type} (B : ℕ) (l : List α) : (chunks B l).flatten = l :=
  chunks_flatten_aux B l.length l le_rfl

theorem flatten_map_filter {α : Type} (p : α → Bool) (L : List (List α)) :
    (L.map (List.filter p)).flatten = L.flatten.filter p := by
  induction L with
  | nil => simp
  | cons a L ih =>
    rw [List.map_cons, List.flatten_cons, List.flatten_cons, List.filter_append, ih]

/-- Bucket of bin `j` as accumulated by the batched enumeration loop: each
batch appends, in enumeration order, its points whose uniform-cube index is
`j`. -/
def batchedBucket (B : ℕ) (pts : List LabPoint) (bins : ℕ) (j : ℤ) : List LabPoint :=
  ((chunks B pts).map
    (List.filter fun p => decide (lab_bin_index p.L p.a p.b bins = j))).flatten

theorem batchedBucket_eq_filter (B : ℕ) (pts : List LabPoint) (bins : ℕ) (j : ℤ) :
    batchedBucket B pts bins j
      = pts.filter (fun p => decide (lab_bin_index p.L p.a p.b bins = j)) := by
  unfold batchedBucket
  rw [flatten_map_filter, chunks_flatten]

/-- C7: the bin buckets (and therefore the per-bin representatives) produced
by the batched gamut enumeration do not depend on the batch size: for any two
batch sizes the bucket of every bin is the same list — the points of that bin
in enumeration order — and the representative computed from it is the same. -/
theorem batch_size_invariance (B1 B2 : ℕ) (ltr : ℚ × ℚ × ℚ → ℚ × ℚ × ℚ)
    (method : String) (pts : List LabPoint) (bins : ℕ) (j : ℤ) :
    batchedBucket B1 pts bins j
        = pts.filter (fun p => decide (lab_bin_index p.L p.a p.b bins = j)) ∧
      batchedBucket B1 pts bins j = batchedBucket B2 pts bins j ∧
      representativeForBin ltr method (batchedBucket B1 pts bins j)
        = representativeForBin ltr method (batchedBucket B2 pts bins j) := by
  refine ⟨batchedBucket_eq_filter B1 pts bins j, ?_, ?_⟩
  · rw [batchedBucket_eq_filter, batchedBucket_eq_filter]
  · rw [batchedBucket_eq_filter, batchedBucket_eq_filter]

/-! LUT materialization (`build_rgb_texture`).
The texture pass re-walks the lattice in batches and stores, at every RGB
lattice point, `representatives[lab_bin_index(rgb_to_lab(point))]` — the same
`rgb_to_lab` (abstracted as the rational-valued function `lab`) and the same
`lab_bin_index` as the enumeration pass. -/

/-- The bucket dict entry for an RGB lattice point: RGB scaled to `[0,1]`
plus its Lab coordinates. -/
def toLabPoint (lab : ℕ × ℕ × ℕ → ℚ × ℚ × ℚ) (p : ℕ × ℕ × ℕ) : LabPoint :=
  ⟨((p.1 : ℚ) / 255, (p.2.1 : ℚ) / 255, (p.2.2 : ℚ) / 255),
    (lab p).1, (lab p).2.1, (lab p).2.2⟩

/-- Uniform-cube bin index of a lattice point, through its Lab conversion. -/
def pointBinIndex (lab : ℕ × ℕ × ℕ → ℚ × ℚ × ℚ) (bins : ℕ) (p : ℕ × ℕ × ℕ) : ℤ :=
  labBinIndexOf (lab p) bins

/-- The bin → representative mapping computed by the enumeration phase. -/
def enumerationReps (ltr : ℚ × ℚ × ℚ → ℚ × ℚ × ℚ) (method : String)
    (lab : ℕ × ℕ × ℕ → ℚ × ℚ × ℚ) (pts : List (ℕ × ℕ × ℕ)) (bins : ℕ) :
    ℤ → Except String (ℚ × ℚ × ℚ) :=
  fun j => representativeForBin ltr method
    ((pts.map (toLabPoint lab)).filter
      (fun q => decide (lab_bin_index q.L q.a q.b bins = j)))

/-- The texture array as built by the write loop: start from an unwritten
table and store `some (f p)` at every enumerated lattice point `p`. -/
def buildTextureWrites {α : Type} (f : ℕ × ℕ × ℕ → α) (pts : List (ℕ × ℕ × ℕ))
    (init : ℕ × ℕ × ℕ → Option α) : ℕ × ℕ × ℕ → Option α :=
  pts.foldl (fun tex p => Function.update tex p (some (f p))) init

theorem buildTextureWrites_not_mem {α : Type} (f : ℕ × ℕ × ℕ → α)
    (pts : List (ℕ × ℕ × ℕ)) (init : ℕ × ℕ × ℕ → Option α) (p : ℕ × ℕ × ℕ)
    (hp : p ∉ pts) : buildTextureWrites f pts init p = init p := by
  induction pts generalizing init with
  | nil => rfl
  | cons q pts ih =>
    have h1 : p ≠ q := fun h => hp (h ▸ List.mem_cons_self q pts)
    have h2 : p ∉ pts := fun h => hp (List.mem_cons_of_mem _ h)
    show buildTextureWrites f pts (Function.update init q (some (f q))) p = init p
    rw [ih _ h2, Function.update_noteq h1]

theorem buildTextureWrites_mem {α : Type} (f : ℕ × ℕ × ℕ → α)
    (pts : List (ℕ × ℕ × ℕ)) (init : ℕ × ℕ × ℕ → Option α) (p : ℕ × ℕ × ℕ)
    (hp : p ∈ pts) : buildTextureWrites f pts init p = some (f p) := by
  induction pts generalizing init with
  | nil => simp at hp
  | cons q pts ih =>
    show buildTextureWrites f pts (Function.update init q (some (f q))) p = some (f p)
    by_cases hmem : p ∈ pts
    · exact ih _ hmem
    · have hpq : p = q := by
        rcases List.mem_cons.mp hp with h | h
        · exact h
        · exact absurd h hmem
      rw [buildTextureWrites_not_mem f pts _ p hmem]
      subst hpq
      rw [Function.update_same]

/-- C5: querying the materialized LUT at any lattice point `p` of bin `j`
returns exactly the representative the enumeration phase computed for bin
`j`: the materialization pass recomputes the bin index with the very same
Lab conversion and `lab_bin_index`, so the two passes cannot drift. -/
theorem lut_matches_enumeration (ltr : ℚ × ℚ × ℚ → ℚ × ℚ × ℚ) (method : String)
    (lab : ℕ × ℕ × ℕ → ℚ × ℚ × ℚ) (pts : List (ℕ × ℕ × ℕ)) (bins : ℕ)
    (p : ℕ × ℕ × ℕ) (j : ℤ) (hp : p ∈ pts) (hj : pointBinIndex lab bins p = j) :
    buildTextureWrites
        (fun q => enumerationReps ltr method lab pts bins (pointBinIndex lab bins q))
        pts (fun _ => none) p
      = some (enumerationReps ltr method lab pts bins j) := by
  rw [buildTextureWrites_mem _ _ _ _ hp, hj]

/-- Witness for C5: a two-point lattice with the identity Lab assignment;
the point `(1,2,3)` lands in uniform-cube bin 12 at `bins = 3`. -/
theorem lut_matches_enumeration_witness :
    ((1, 2, 3) ∈ [((0 : ℕ), (0 : ℕ), (0 : ℕ)), (1, 2, 3)] ∧
      pointBinIndex (fun q => ((q.1 : ℚ), (q.2.1 : ℚ), (q.2.2 : ℚ))) 3 (1, 2, 3) = 12) ∧
    buildTextureWrites
        (fun q => enumerationReps id "darkest" (fun q2 => ((q2.1 : ℚ), (q2.2.1 : ℚ), (q2.2.2 : ℚ)))
          [((0 : ℕ), (0 : ℕ), (0 : ℕ)), (1, 2, 3)] 3
          (pointBinIndex (fun q2 => ((q2.1 : ℚ), (q2.2.1 : ℚ), (q2.2.2 : ℚ))) 3 q))
        [((0 : ℕ), (0 : ℕ), (0 : ℕ)), (1, 2, 3)] (fun _ => none) (1, 2, 3)
      = some (enumerationReps id "darkest"
          (fun q2 => ((q2.1 : ℚ), (q2.2.1 : ℚ), (q2.2.2 : ℚ)))
          [((0 : ℕ), (0 : ℕ), (0 : ℕ)), (1, 2, 3)] 3 12) :=
  ⟨⟨by decide, by norm_num [pointBinIndex, labBinIndexOf, lab_bin_index]⟩,
    lut_matches_enumeration id "darkest"
      (fun q2 => ((q2.1 : ℚ), (q2.2.1 : ℚ), (q2.2.2 : ℚ)))
      [((0 : ℕ), (0 : ℕ), (0 : ℕ)), (1, 2, 3)] 3 (1, 2, 3) 12 (by decide)
      (by norm_num [pointBinIndex, labBinIndexOf, lab_bin_index])⟩

/-! Operational order of `compute_bin_representatives`.
The script first enumerates and buckets every lattice point (lines 298-332)
and only afterwards loops over the bins computing representatives (lines
342-372); the `ValueError` for an unknown method is raised inside that second
loop, at the first occupied bin. The run is modelled as its event trace. -/

/-- Events of a `compute_bin_representatives` run: a lattice point being
enumerated into its bucket, a bin's representative being computed, or the
`ValueError` raised for an unknown method. -/
inductive RunEvent where
  | enum : LabPoint → RunEvent
  | rep : ℕ → RunEvent
  | err : String → RunEvent
deriving DecidableEq

/-- State of `bin_points[j]` after the enumeration phase (BINS = 3 pipeline
configuration uses `bins` as parameter here). -/
def bucketAt (pts : List LabPoint) (bins : ℕ) (j : ℕ) : List LabPoint :=
  pts.filter (fun p => decide (lab_bin_index p.L p.a p.b bins = (j : ℤ)))

/-- The representative loop (`for bin_idx in range(total_bins)`): empty
buckets are skipped, known methods emit a representative event, an unknown
method raises and aborts the loop. -/
def repLoopEvents (method : String) (pts : List LabPoint) (bins : ℕ) :
    List ℕ → List RunEvent
  | [] => []
  | j :: js =>
    if (bucketAt pts bins j).isEmpty then repLoopEvents method pts bins js
    else if method = "average" ∨ method = "darkest" ∨ method = "brightest" then
      RunEvent.rep j :: repLoopEvents method pts bins js
    else [RunEvent.err method]

/-- Full event trace of `compute_bin_representatives`: the enumeration of all
points, followed by the representative loop over all `bins³` bins. -/
def computeRepsTrace (method : String) (pts : List LabPoint) (bins : ℕ) :
    List RunEvent :=
  pts.map RunEvent.enum ++ repLoopEvents method pts bins (List.range (bins ^ 3))

/-- A lattice point whose Lab triple falls in uniform-cube bin 0 at
`bins = 3`. -/
def zeroPoint : LabPoint := ⟨(0, 0, 0), 0, -128, -128⟩

/-- Counterexample to C6 as stated: with the unknown method `"bogus"` and a
one-point lattice, the run does raise the `ValueError`, but the first event
of the trace is the enumeration of the point — the failure does not occur
before enumeration work begins. -/
theorem unknownMethod_failure_not_before_enumeration :
    (computeRepsTrace "bogus" [zeroPoint] 3).head? = some (RunEvent.enum zeroPoint) ∧
      RunEvent.err "bogus" ∈ computeRepsTrace "bogus" [zeroPoint] 3 ∧
      (computeRepsTrace "bogus" [zeroPoint] 3).head? ≠ some (RunEvent.err "bogus") := by
  have hidx : lab_bin_index (0 : ℚ) (-128) (-128) 3 = 0 := by
    norm_num [lab_bin_index]
  have hbucket : bucketAt [zeroPoint] 3 0 = [zeroPoint] := by
    simp [bucketAt, zeroPoint, List.filter_cons, hidx]
  have hloop : repLoopEvents "bogus" [zeroPoint] 3 (List.range (3 ^ 3))
      = [RunEvent.err "bogus"] := by
    rw [show (3 : ℕ) ^ 3 = 26 + 1 from rfl, List.range_succ_eq_map, repLoopEvents, hbucket]
    simp
  have htrace : computeRepsTrace "bogus" [zeroPoint] 3
      = [RunEvent.enum zeroPoint, RunEvent.err "bogus"] := by
    rw [computeRepsTrace, hloop]
    rfl
  rw [htrace]
  refine ⟨rfl, ?_, ?_⟩
  · simp
  · simp

theorem err_mem_repLoopEvents (method : String) (pts : List LabPoint) (bins : ℕ)
    (hm : ¬(method = "average" ∨ method = "darkest" ∨ method = "brightest")) :
    ∀ js : List ℕ, (∃ j ∈ js, (bucketAt pts bins j).isEmpty = false) →
      RunEvent.err method ∈ repLoopEvents method pts bins js := by
  intro js
  induction js with
  | nil =>
    rintro ⟨j, hj, _⟩
    simp at hj
  | cons j js ih =>
    rintro ⟨j2, hj2, hocc⟩
    rw [repLoopEvents]
    by_cases hempty : (bucketAt pts bins j).isEmpty
    · rw [if_pos hempty]
      apply ih
      rcases List.mem_cons.mp hj2 with h | h
      · subst h
        rw [hempty] at hocc
        cases hocc
      · exact ⟨j2, h, hocc⟩
    · rw [if_neg hempty, if_neg hm]
      exact List.mem_singleton_self _

/-- C6 amended: with an unknown aggregation method and a non-empty lattice,
the run fails with the `ValueError`, but only in the representative phase:
the trace consists of the enumeration of every lattice point followed by a
suffix containing the error — the failure occurs after all enumeration work,
not before it. -/
theorem unknownMethod_fails_after_enumeration (method : String)
    (pts : List LabPoint)
    (hm : method ≠ "average" ∧ method ≠ "darkest" ∧ method ≠ "brightest")
    (hne : pts ≠ []) :
    ∃ rest, computeRepsTrace method pts 3 = pts.map RunEvent.enum ++ rest ∧
      RunEvent.err method ∈ rest := by
  refine ⟨repLoopEvents method pts 3 (List.range (3 ^ 3)), rfl, ?_⟩
  apply err_mem_repLoopEvents method pts 3 (by tauto)
  match pts, hne with
  | p :: ps, _ =>
    have h0 : 0 ≤ lab_bin_index p.L p.a p.b 3 := lab_bin_index_nonneg _ _ _ 3 (by omega)
    have hlt : lab_bin_index p.L p.a p.b 3 < (3 : ℤ) ^ 3 := lab_bin_index_lt _ _ _ 3 (by omega)
    refine ⟨(lab_bin_index p.L p.a p.b 3).toNat, List.mem_range.mpr (by omega), ?_⟩
    have hpmem : p ∈ bucketAt (p :: ps) 3 (lab_bin_index p.L p.a p.b 3).toNat := by
      apply List.mem_filter.mpr
      refine ⟨List.mem_cons_self _ _, ?_⟩
      simp only [decide_eq_true_eq]
      omega
    cases hcase : (bucketAt (p :: ps) 3 (lab_bin_index p.L p.a p.b 3).toNat).isEmpty
    · rfl
    · rw [List.isEmpty_iff] at hcase
      rw [hcase] at hpmem
      simp at hpmem

/-- Witness for the amended C6 at the concrete unknown method `"bogus"` and a
one-point lattice. -/
theorem unknownMethod_fails_after_enumeration_witness :
    (("bogus" : String) ≠ "average" ∧ ("bogus" : String) ≠ "darkest" ∧
        ("bogus" : String) ≠ "brightest") ∧
      ([zeroPoint] : List LabPoint) ≠ [] ∧
      ∃ rest, computeRepsTrace "bogus" [zeroPoint] 3
          = ([zeroPoint] : List LabPoint).map RunEvent.enum ++ rest ∧
        RunEvent.err "bogus" ∈ rest :=
  ⟨by decide, List.cons_ne_nil _ _,
    unknownMethod_fails_after_enumeration "bogus" [zeroPoint] (by decide)
      (List.cons_ne_nil _ _)⟩

/-! The classification-matrix writer (`convert_mat.py`, lines 66-82).
For every index `0 ≤ i < data.shape[0]` a line `<i> <p_1> ... <p_39>` is
written; the probabilities are divided by their sum when that sum is
positive, and written unchanged otherwise. -/

/-- Per-row normalization of the writer loop. -/
def convertRow (row : List ℚ) : List ℚ :=
  if row.sum > 0 then row.map (fun p => p / row.sum) else row

/-- The writer loop, producing `(index, probabilities)` for every row. -/
def writeRows (idx : ℕ) : List (List ℚ) → List (ℕ × List ℚ)
  | [] => []
  | row :: rest => (idx, convertRow row) :: writeRows (idx + 1) rest

/-- All lines of `w2c39.txt` as written by `convert_mat.py`. -/
def writeMatrixRows (data : List (List ℚ)) : List (ℕ × List ℚ) :=
  writeRows 0 data

theorem sum_map_div (l : List ℚ) (s : ℚ) :
    (l.map (fun p => p / s)).sum = l.sum / s := by
  induction l with
  | nil => simp
  | cons x l ih => simp [ih, add_div]

theorem mem_writeRows (data : List (List ℚ)) (k i : ℕ) (r : List ℚ)
    (h : (i, r) ∈ writeRows k data) : ∃ raw ∈ data, r = convertRow raw := by
  induction data generalizing k with
  | nil => simp [writeRows] at h
  | cons row rest ih =>
    rw [writeRows] at h
    rcases List.mem_cons.mp h with h2 | h2
    · refine ⟨row, List.mem_cons_self _ _, ?_⟩
      have := congrArg Prod.snd h2
      exact this
    · obtain ⟨raw, hmem, hr⟩ := ih (k + 1) h2
      exact ⟨raw, List.mem_cons_of_mem _ hmem, hr⟩

/-- Counterexample to C8 as stated: the writer emits a line for a zero row
(unoccupied bin) without normalizing it, and that line's probabilities sum
to 0, not 1. -/
theorem written_row_not_normalized :
    ((0 : ℕ), ([0, 0, 0] : List ℚ)) ∈ writeMatrixRows [[0, 0, 0]] ∧
      ([0, 0, 0] : List ℚ).sum ≠ 1 := by
  constructor
  · have hrow : convertRow [0, 0, 0] = [0, 0, 0] := by
      rw [convertRow, if_neg]
      norm_num
    rw [writeMatrixRows, writeRows, hrow]
    exact List.mem_cons_self _ _
  · norm_num

/-- C8 amended: every line the writer emits is the conversion of one source
row; the probabilities are normalized to sum exactly to 1 whenever the raw
row has positive sum, and are written unchanged (summing to 0 for the zero
rows of unoccupied bins) otherwise. -/
theorem written_rows_normalized (data : List (List ℚ)) (i : ℕ) (r : List ℚ)
    (h : (i, r) ∈ writeMatrixRows data) :
    ∃ raw ∈ data, r = convertRow raw ∧ (0 < raw.sum → r.sum = 1) ∧
      (raw.sum ≤ 0 → r = raw) := by
  obtain ⟨raw, hmem, hr⟩ := mem_writeRows data 0 i r h
  refine ⟨raw, hmem, hr, ?_, ?_⟩
  · intro hpos
    rw [hr, convertRow, if_pos hpos, sum_map_div, div_self (ne_of_gt hpos)]
  · intro hle
    rw [hr, convertRow, if_neg (not_lt.mpr hle)]

/-- Witness for the amended C8 on a one-row matrix with positive sum. -/
theorem written_rows_normalized_witness :
    ((0 : ℕ), convertRow [2, 2]) ∈ writeMatrixRows [[2, 2]] ∧
      ∃ raw ∈ ([[2, 2]] : List (List ℚ)), convertRow [2, 2] = convertRow raw ∧
        (0 < raw.sum → (convertRow [2, 2]).sum = 1) ∧
        (raw.sum ≤ 0 → convertRow [2, 2] = raw) :=
  ⟨List.mem_cons_self _ _,
    written_rows_normalized [[2, 2]] 0 (convertRow [2, 2]) (List.mem_cons_self _ _)⟩

/-! The two sRGB→Lab encodings.
Variant 1 (`generate_textures.rgb_to_lab`): unscaled XYZ, white point
`(0.95047, 1.00000, 1.08883)`, transfer function
`t^(1/3)` above ε = 0.008856, `(903.3·t + 16)/116` below.
Variant 2 (`calculate_probabilities.rgb_to_xyz`/`xyz_to_lab`, identical in
`build_texture.py` and `convert_mat.py`): XYZ scaled by 100, white point
`(95.047, 100.000, 108.883)`, linear branch `7.787·t + 16/116`.
The irrational primitives `x^2.4` and `x^(1/3)` are abstracted as `pow24`
and `cbrt`; both variants apply them at identical arguments. -/

/-- The shared sRGB gamma decode `((c+0.055)/1.055)^2.4` above 0.04045,
`c/12.92` below. -/
def srgbGammaDecode (pow24 : ℚ → ℚ) (c : ℚ) : ℚ :=
  if c > 0.04045 then pow24 ((c + 0.055) / 1.055) else c / 12.92

/-- Variant 1 transfer function (κ = 903.3 on the unscaled encoding). -/
def f903 (cbrt : ℚ → ℚ) (t : ℚ) : ℚ :=
  if t > 0.008856 then cbrt t else (903.3 * t + 16) / 116

/-- Variant 2 transfer function (slope 7.787 on the ×100 encoding). -/
def f7787 (cbrt : ℚ → ℚ) (t : ℚ) : ℚ :=
  if t > 0.008856 then cbrt t else 7.787 * t + 16 / 116

/-- Linear RGB → XYZ of `generate_textures.rgb_to_lab` (rgb in `[0,1]`). -/
def rgb_to_xyz_v1 (pow24 : ℚ → ℚ) (rgb : ℚ × ℚ × ℚ) : ℚ × ℚ × ℚ :=
  (0.4124564 * srgbGammaDecode pow24 rgb.1 + 0.3575761 * srgbGammaDecode pow24 rgb.2.1 +
      0.1804375 * srgbGammaDecode pow24 rgb.2.2,
    0.2126729 * srgbGammaDecode pow24 rgb.1 + 0.7151522 * srgbGammaDecode pow24 rgb.2.1 +
      0.0721750 * srgbGammaDecode pow24 rgb.2.2,
    0.0193339 * srgbGammaDecode pow24 rgb.1 + 0.1191920 * srgbGammaDecode pow24 rgb.2.1 +
      0.9503041 * srgbGammaDecode pow24 rgb.2.2)

/-- Full sRGB→Lab of `generate_textures.rgb_to_lab`. -/
def rgb_to_lab_v1 (pow24 cbrt : ℚ → ℚ) (rgb : ℚ × ℚ × ℚ) : ℚ × ℚ × ℚ :=
  (116 * f903 cbrt ((rgb_to_xyz_v1 pow24 rgb).2.1 / 1.00000) - 16,
    500 * (f903 cbrt ((rgb_to_xyz_v1 pow24 rgb).1 / 0.95047) -
      f903 cbrt ((rgb_to_xyz_v1 pow24 rgb).2.1 / 1.00000)),
    200 * (f903 cbrt ((rgb_to_xyz_v1 pow24 rgb).2.1 / 1.00000) -
      f903 cbrt ((rgb_to_xyz_v1 pow24 rgb).2.2 / 1.08883)))

/-- Function `calculate_probabilities.rgb_to_xyz` (rgb as bytes `0-255`, result ×100). -/
def rgb_to_xyz_py (pow24 : ℚ → ℚ) (r g b : ℕ) : ℚ × ℚ × ℚ :=
  ((srgbGammaDecode pow24 ((r : ℚ) / 255) * 0.4124564 +
      srgbGammaDecode pow24 ((g : ℚ) / 255) * 0.3575761 +
      srgbGammaDecode pow24 ((b : ℚ) / 255) * 0.1804375) * 100,
    (srgbGammaDecode pow24 ((r : ℚ) / 255) * 0.2126729 +
      srgbGammaDecode pow24 ((g : ℚ) / 255) * 0.7151522 +
      srgbGammaDecode pow24 ((b : ℚ) / 255) * 0.0721750) * 100,
    (srgbGammaDecode pow24 ((r : ℚ) / 255) * 0.0193339 +
      srgbGammaDecode pow24 ((g : ℚ) / 255) * 0.1191920 +
      srgbGammaDecode pow24 ((b : ℚ) / 255) * 0.9503041) * 100)

/-- Function `calculate_probabilities.xyz_to_lab` (white point `95.047/100/108.883`). -/
def xyz_to_lab_py (cbrt : ℚ → ℚ) (xyz : ℚ × ℚ × ℚ) : ℚ × ℚ × ℚ :=
  (116 * f7787 cbrt (xyz.2.1 / 100.000) - 16,
    500 * (f7787 cbrt (xyz.1 / 95.047) - f7787 cbrt (xyz.2.1 / 100.000)),
    200 * (f7787 cbrt (xyz.2.1 / 100.000) - f7787 cbrt (xyz.2.2 / 108.883)))

/-- Function `calculate_probabilities.rgb_to_lab`. -/
def rgb_to_lab_py (pow24 cbrt : ℚ → ℚ) (r g b : ℕ) : ℚ × ℚ × ℚ :=
  xyz_to_lab_py cbrt (rgb_to_xyz_py pow24 r g b)

/-- Counterexample to C9 as stated: at the RGB byte triple `(1,1,1)` — all
branch tests resolve to the rational linear branches, so the result does not
depend on the abstracted irrational primitives — the two encodings produce
different Lab triples (`903.3/116 ≠ 7.787`). -/
theorem lab_encodings_differ :
    rgb_to_lab_py id id 1 1 1 ≠ rgb_to_lab_v1 id id (1 / 255, 1 / 255, 1 / 255) := by
  norm_num [rgb_to_lab_py, rgb_to_lab_v1, rgb_to_xyz_py, rgb_to_xyz_v1, xyz_to_lab_py,
    srgbGammaDecode, f903, f7787, Prod.ext_iff]

/-- The exact discrepancy of the two transfer functions on the linear
branch. -/
def linDelta (t : ℚ) : ℚ := if t > 0.008856 then 0 else t / 14500

/-- The componentwise Lab discrepancy induced by `linDelta` at the XYZ
ratios `(tx, ty, tz)`. -/
def labLinDelta (t : ℚ × ℚ × ℚ) : ℚ × ℚ × ℚ :=
  (116 * linDelta t.2.1, 500 * (linDelta t.1 - linDelta t.2.1),
    200 * (linDelta t.2.1 - linDelta t.2.2))

/-- The normalized XYZ ratios of variant 1. -/
def xyzRatios_v1 (pow24 : ℚ → ℚ) (rgb : ℚ × ℚ × ℚ) : ℚ × ℚ × ℚ :=
  ((rgb_to_xyz_v1 pow24 rgb).1 / 0.95047, (rgb_to_xyz_v1 pow24 rgb).2.1 / 1.00000,
    (rgb_to_xyz_v1 pow24 rgb).2.2 / 1.08883)

/-- C9 amended: the two encodings agree exactly in their XYZ normalization
(the ×100 scaling cancels against the ×100 white point) and in the cube-root
branch of the transfer function, but differ on the linear branch by exactly
`t/14500` (since `903.3/116 = 7.787 + 1/14500`); the Lab triples they compute
therefore differ by exactly `labLinDelta` of the XYZ ratios, which vanishes
only when every ratio is in the cube-root branch or zero. -/
theorem lab_encodings_differ_only_in_linear_branch (pow24 cbrt : ℚ → ℚ)
    (r g b : ℕ) :
    (∀ t : ℚ, f903 cbrt t = f7787 cbrt t + linDelta t) ∧
      xyzRatios_v1 pow24 ((r : ℚ) / 255, (g : ℚ) / 255, (b : ℚ) / 255)
        = ((rgb_to_xyz_py pow24 r g b).1 / 95.047,
            (rgb_to_xyz_py pow24 r g b).2.1 / 100.000,
            (rgb_to_xyz_py pow24 r g b).2.2 / 108.883) ∧
      rgb_to_lab_v1 pow24 cbrt ((r : ℚ) / 255, (g : ℚ) / 255, (b : ℚ) / 255)
        = rgb_to_lab_py pow24 cbrt r g b +
            labLinDelta (xyzRatios_v1 pow24 ((r : ℚ) / 255, (g : ℚ) / 255, (b : ℚ) / 255)) := by
  have hf : ∀ t : ℚ, f903 cbrt t = f7787 cbrt t + linDelta t := by
    intro t
    rw [f903, f7787, linDelta]
    by_cases ht : t > 0.008856
    · rw [if_pos ht, if_pos ht, if_pos ht, add_zero]
    · rw [if_neg ht, if_neg ht, if_neg ht]
      ring_nf
  have hratios : xyzRatios_v1 pow24 ((r : ℚ) / 255, (g : ℚ) / 255, (b : ℚ) / 255)
      = ((rgb_to_xyz_py pow24 r g b).1 / 95.047,
          (rgb_to_xyz_py pow24 r g b).2.1 / 100.000,
          (rgb_to_xyz_py pow24 r g b).2.2 / 108.883) := by
    rw [xyzRatios_v1, rgb_to_xyz_v1, rgb_to_xyz_py]
    refine Prod.ext ?_ (Prod.ext ?_ ?_)
    · show _ / (0.95047 : ℚ) = _ * 100 / 95.047
      ring_nf
    · show _ / (1.00000 : ℚ) = _ * 100 / 100.000
      ring_nf
    · show _ / (1.08883 : ℚ) = _ * 100 / 108.883
      ring_nf
  refine ⟨hf, hratios, ?_⟩
  have hx := congrArg Prod.fst hratios
  have hy := congrArg (fun v : ℚ × ℚ × ℚ => v.2.1) hratios
  have hz := congrArg (fun v : ℚ × ℚ × ℚ => v.2.2) hratios
  simp only [xyzRatios_v1] at hx hy hz
  rw [rgb_to_lab_v1, rgb_to_lab_py, xyz_to_lab_py, labLinDelta, xyzRatios_v1]
  rw [hx, hy, hz, hf, hf, hf]
  simp only [Prod.mk_add_mk]
  refine Prod.ext ?_ (Prod.ext ?_ ?_) <;> ring

/-! The name→RGB fallback divergence.
`build_texture.py` (lines 110-117) builds `color_rgb_array` with black
`(0,0,0)` for any loaded color name missing from `COLOR_RGB_VALUES` (after a
printed warning), while `calculate_probabilities.apply_matrix_to_pixel`
(lines 194-203) returns the input pixel unchanged in the same situation. -/

/-- The static name→RGB table (38 distinct keys; the literal in
`build_texture.py` repeats `dark purple` with the same value, which the
Python dict collapses to this same mapping). -/
def COLOR_RGB_VALUES : List (String × (ℕ × ℕ × ℕ)) :=
  [("black", (0, 0, 0)), ("brown", (139, 69, 19)), ("blue", (0, 0, 255)),
    ("grey", (128, 128, 128)), ("green", (0, 255, 0)), ("orange", (255, 165, 0)),
    ("pink", (255, 192, 203)), ("purple", (128, 0, 128)), ("red", (255, 0, 0)),
    ("white", (255, 255, 255)), ("yellow", (255, 255, 0)), ("turquoise", (64, 224, 208)),
    ("olive green", (85, 107, 47)), ("mint green", (152, 255, 152)), ("maroon", (128, 0, 0)),
    ("lavender", (230, 230, 250)), ("magenta", (255, 0, 255)), ("salmon", (250, 128, 114)),
    ("cyan", (0, 255, 255)), ("rose", (255, 0, 127)), ("dark green", (0, 100, 0)),
    ("pale yellow", (255, 255, 153)), ("beige", (245, 245, 220)), ("lilac", (200, 162, 200)),
    ("olive", (128, 128, 0)), ("fuchsia", (255, 0, 255)), ("mustard", (255, 219, 88)),
    ("mauve", (224, 176, 255)), ("dark purple", (48, 25, 52)), ("ochre", (204, 119, 34)),
    ("light blue", (173, 216, 230)), ("lime green", (50, 205, 50)),
    ("light green", (144, 238, 144)), ("peach", (255, 229, 180)), ("teal", (0, 128, 128)),
    ("violet", (143, 0, 255)), ("burgundy", (128, 0, 32)), ("tan", (210, 180, 140))]

/-- The `np.argmax` inner loop: first index of the running maximum. -/
def npArgmaxGo : ℕ → ℕ → ℚ → List ℚ → ℕ
  | _, bi, _, [] => bi
  | i, bi, bv, x :: xs =>
    if x > bv then npArgmaxGo (i + 1) i x xs else npArgmaxGo (i + 1) bi bv xs

/-- Function `np.argmax` over a probability row (first index of the maximum). -/
def npArgmax : List ℚ → ℕ
  | [] => 0
  | x :: xs => npArgmaxGo 1 0 x xs

/-- Array `color_rgb_array` of `build_texture.py`: per loaded name, the table's RGB
or black for an unknown name. -/
def color_rgb_array (names : List String) : List (ℕ × ℕ × ℕ) :=
  names.map (fun n =>
    match COLOR_RGB_VALUES.lookup n with
    | some c => c
    | none => (0, 0, 0))

/-- One texture entry of the `build_texture.py` LUT loop: for a bin present
in the matrix, `color_rgb_array[argmax(probs)]`; otherwise the input RGB. -/
def buildTextureEntry (colorData : ℕ → Option (List ℚ)) (idx : ℕ)
    (names : List String) (r g b : ℕ) : ℕ × ℕ × ℕ :=
  match colorData idx with
  | some probs => (color_rgb_array names).getD (npArgmax probs) (0, 0, 0)
  | none => (r, g, b)

/-- Function `calculate_probabilities.apply_matrix_to_pixel`: same matrix lookup and
argmax, but the name→RGB lookup falls back to the input pixel. -/
def apply_matrix_to_pixel (colorData : ℕ → Option (List ℚ)) (idx : ℕ)
    (names : List String) (r g b : ℕ) : ℕ × ℕ × ℕ :=
  match colorData idx with
  | none => (r, g, b)
  | some probs =>
    match COLOR_RGB_VALUES.lookup (names.getD (npArgmax probs) "") with
    | some c => c
    | none => (r, g, b)

/-- C10: when the top-1 color name of a bin's probability row has no entry in
the static name→RGB table, the texture built by `build_texture.py` outputs
black `(0,0,0)` for that bin, whereas `apply_matrix_to_pixel` returns the
input pixel unchanged in the same situation. -/
theorem unknown_name_black_vs_passthrough (colorData : ℕ → Option (List ℚ))
    (idx : ℕ) (names : List String) (probs : List ℚ) (i r g b : ℕ)
    (hdata : colorData idx = some probs) (hmax : npArgmax probs = i)
    (hi : i < names.length)
    (hname : COLOR_RGB_VALUES.lookup names[i] = none) :
    buildTextureEntry colorData idx names r g b = (0, 0, 0) ∧
      apply_matrix_to_pixel colorData idx names r g b = (r, g, b) := by
  have hgetD : names.getD i "" = names[i] := List.getD_eq_getElem names "" hi
  constructor
  · rw [buildTextureEntry, hdata]
    show (color_rgb_array names).getD (npArgmax probs) (0, 0, 0) = (0, 0, 0)
    have hlen : i < (color_rgb_array names).length := by
      rw [color_rgb_array, List.length_map]
      exact hi
    rw [hmax, List.getD_eq_getElem _ _ hlen]
    simp only [color_rgb_array, List.getElem_map]
    rw [hname]
  · rw [apply_matrix_to_pixel, hdata]
    show (match COLOR_RGB_VALUES.lookup (names.getD (npArgmax probs) "") with
      | some c => c
      | none => (r, g, b)) = (r, g, b)
    rw [hmax, hgetD, hname]

/-- Witness for C10: a one-name list whose name is absent from the table. -/
theorem unknown_name_black_vs_passthrough_witness :
    ((fun j : ℕ => if j = 0 then some [(1 : ℚ)] else none) 0 = some [(1 : ℚ)] ∧
      npArgmax [(1 : ℚ)] = 0 ∧
      0 < (["mysterycolor"] : List String).length ∧
      COLOR_RGB_VALUES.lookup
        ((["mysterycolor"] : List String).getD 0 "") = none) ∧
    buildTextureEntry (fun j : ℕ => if j = 0 then some [(1 : ℚ)] else none) 0
        ["mysterycolor"] 7 8 9 = (0, 0, 0) ∧
    apply_matrix_to_pixel (fun j : ℕ => if j = 0 then some [(1 : ℚ)] else none) 0
        ["mysterycolor"] 7 8 9 = (7, 8, 9) :=
  ⟨⟨rfl, rfl, by norm_num, by decide⟩,
    unknown_name_black_vs_passthrough
      (fun j : ℕ => if j = 0 then some [(1 : ℚ)] else none) 0 ["mysterycolor"]
      [(1 : ℚ)] 0 7 8 9 rfl rfl (by norm_num) (by decide)⟩

/-! The real-valued sRGB↔Lab round trip (`generate_textures.rgb_to_lab` /
`lab_to_rgb`, lines 37-130). For the round-trip tolerance claim the pipeline
is embedded over `ℝ` with the actual irrational primitives as `Real.rpow`
powers (`x^2.4`, `x^(1/3)`, `x^(1/2.4)`), exactly as the source computes
them in exact arithmetic. -/

noncomputable def gammaDecodeR (v : ℝ) : ℝ :=
  if v > 0.04045 then ((v + 0.055) / 1.055) ^ (2.4 : ℝ) else v / 12.92

noncomputable def fR (t : ℝ) : ℝ :=
  if t > 0.008856 then t ^ ((1 : ℝ) / 3) else (903.3 * t + 16) / 116

noncomputable def fwdX (rgb : ℝ × ℝ × ℝ) : ℝ :=
  0.4124564 * gammaDecodeR rgb.1 + 0.3575761 * gammaDecodeR rgb.2.1 +
    0.1804375 * gammaDecodeR rgb.2.2

noncomputable def fwdY (rgb : ℝ × ℝ × ℝ) : ℝ :=
  0.2126729 * gammaDecodeR rgb.1 + 0.7151522 * gammaDecodeR rgb.2.1 +
    0.0721750 * gammaDecodeR rgb.2.2

noncomputable def fwdZ (rgb : ℝ × ℝ × ℝ) : ℝ :=
  0.0193339 * gammaDecodeR rgb.1 + 0.1191920 * gammaDecodeR rgb.2.1 +
    0.9503041 * gammaDecodeR rgb.2.2

/-- `generate_textures.rgb_to_lab` over `ℝ`. -/
noncomputable def rgb_to_lab_real (rgb : ℝ × ℝ × ℝ) : ℝ × ℝ × ℝ :=
  (116 * fR (fwdY rgb / 1.00000) - 16,
    500 * (fR (fwdX rgb / 0.95047) - fR (fwdY rgb / 1.00000)),
    200 * (fR (fwdY rgb / 1.00000) - fR (fwdZ rgb / 1.08883)))

noncomputable def labFy (lab : ℝ × ℝ × ℝ) : ℝ := (lab.1 + 16) / 116

noncomputable def labFx (lab : ℝ × ℝ × ℝ) : ℝ := lab.2.1 / 500 + labFy lab

noncomputable def labFz (lab : ℝ × ℝ × ℝ) : ℝ := labFy lab - lab.2.2 / 200

noncomputable def invXr (lab : ℝ × ℝ × ℝ) : ℝ :=
  if (labFx lab) ^ 3 > 0.008856 then (labFx lab) ^ 3 else (116 * labFx lab - 16) / 903.3

noncomputable def invYr (lab : ℝ × ℝ × ℝ) : ℝ :=
  if lab.1 > 903.3 * 0.008856 then ((lab.1 + 16) / 116) ^ 3 else lab.1 / 903.3

noncomputable def invZr (lab : ℝ × ℝ × ℝ) : ℝ :=
  if (labFz lab) ^ 3 > 0.008856 then (labFz lab) ^ 3 else (116 * labFz lab - 16) / 903.3

noncomputable def gammaEncodeR (u : ℝ) : ℝ :=
  if u > 0.0031308 then 1.055 * u ^ ((1 : ℝ) / 2.4) - 0.055 else 12.92 * u

noncomputable def clamp01 (x : ℝ) : ℝ := min 1 (max 0 x)

/-- `generate_textures.lab_to_rgb` over `ℝ` (XYZ scaled by the white point,
fixed inverse matrix, inverse gamma, final clamp to `[0,1]`). -/
noncomputable def lab_to_rgb_real (lab : ℝ × ℝ × ℝ) : ℝ × ℝ × ℝ :=
  (clamp01 (gammaEncodeR (3.2404542 * (invXr lab * 0.95047) -
      1.5371385 * (invYr lab * 1.00000) - 0.4985314 * (invZr lab * 1.08883))),
    clamp01 (gammaEncodeR (-0.9692660 * (invXr lab * 0.95047) +
      1.8760108 * (invYr lab * 1.00000) + 0.0415560 * (invZr lab * 1.08883))),
    clamp01 (gammaEncodeR (0.0556434 * (invXr lab * 0.95047) -
      0.2040259 * (invYr lab * 1.00000) + 1.0572252 * (invZr lab * 1.08883))))

theorem rpow_div_nat_le {x A : ℝ} (n m : ℕ) (hx : 0 ≤ x) (hA : 0 ≤ A)
    (hm : m ≠ 0) (h : A ^ m ≤ x ^ n) : A ≤ x ^ ((n : ℝ) / m) := by
  have hm' : ((m : ℕ) : ℝ) ≠ 0 := Nat.cast_ne_zero.mpr hm
  have h1 : ((A ^ m : ℝ)) ^ ((1 : ℝ) / (m : ℝ)) ≤ ((x ^ n : ℝ)) ^ ((1 : ℝ) / (m : ℝ)) :=
    Real.rpow_le_rpow (by positivity) h (by positivity)
  rw [← Real.rpow_natCast A m, ← Real.rpow_natCast x n, ← Real.rpow_mul hA,
    ← Real.rpow_mul hx, mul_one_div, mul_one_div, div_self hm', Real.rpow_one] at h1
  exact h1

theorem rpow_div_nat_ge {x A : ℝ} (n m : ℕ) (hx : 0 ≤ x) (hA : 0 ≤ A)
    (hm : m ≠ 0) (h : x ^ n ≤ A ^ m) : x ^ ((n : ℝ) / m) ≤ A := by
  have hm' : ((m : ℕ) : ℝ) ≠ 0 := Nat.cast_ne_zero.mpr hm
  have h1 : ((x ^ n : ℝ)) ^ ((1 : ℝ) / (m : ℝ)) ≤ ((A ^ m : ℝ)) ^ ((1 : ℝ) / (m : ℝ)) :=
    Real.rpow_le_rpow (by positivity) h (by positivity)
  rw [← Real.rpow_natCast A m, ← Real.rpow_natCast x n, ← Real.rpow_mul hA,
    ← Real.rpow_mul hx, mul_one_div, mul_one_div, div_self hm', Real.rpow_one] at h1
  exact h1

theorem rpow_third_cube {t : ℝ} (ht : 0 ≤ t) : (t ^ ((1 : ℝ) / 3)) ^ (3 : ℕ) = t := by
  rw [← Real.rpow_natCast (t ^ ((1 : ℝ) / 3)) 3, ← Real.rpow_mul ht]
  norm_num

/-- Recovery of the x/z XYZ ratio through the transfer function and its
inverse. The branch constants `ε = 0.008856` and `κ = 903.3` are slightly
inconsistent (`((903.3·ε+16)/116)³ = ε + 3.6e-8 > ε`), so on a sliver of
width ≈ 4e-8 below ε the inverse takes the cube branch and the ratio is
recovered only within `1e-7`, exactly elsewhere. -/
theorem inv_x_recovery (t : ℝ) (ht : 0 ≤ t) :
    |(if (fR t) ^ 3 > 0.008856 then (fR t) ^ 3 else (116 * fR t - 16) / 903.3) - t|
      ≤ 0.0000001 := by
  by_cases hte : t > 0.008856
  · have hf : fR t = t ^ ((1 : ℝ) / 3) := by
      simp only [fR]
      rw [if_pos hte]
    rw [hf, rpow_third_cube ht, if_pos hte, sub_self, abs_zero]
    norm_num
  · push_neg at hte
    have hf : fR t = (903.3 * t + 16) / 116 := by
      simp only [fR]
      rw [if_neg (not_lt.mpr hte)]
    rw [hf]
    have hu0 : (0 : ℝ) ≤ (903.3 * t + 16) / 116 := by positivity
    by_cases hcube : ((903.3 * t + 16) / 116) ^ 3 > 0.008856
    · rw [if_pos hcube]
      have hq : (903.3 * t + 16) / 116 ≤ (903.3 * 0.008856 + 16) / 116 := by
        have h1 : 903.3 * t + 16 ≤ 903.3 * 0.008856 + 16 := by linarith
        linarith
      have hcube_ub : ((903.3 * t + 16) / 116) ^ 3 ≤ 0.00885604 := by
        have h2 := pow_le_pow_left hu0 hq 3
        have h3 : (((903.3 : ℝ) * 0.008856 + 16) / 116) ^ 3 ≤ 0.00885604 := by norm_num
        linarith
      have he1 : (0.206893 : ℝ) < (903.3 * t + 16) / 116 := by
        by_contra hcon
        push_neg at hcon
        have h4 := pow_le_pow_left hu0 hcon 3
        have h5 : ((0.206893 : ℝ)) ^ 3 ≤ 0.008856 := by norm_num
        linarith
      have ht_lb : (0.00885594 : ℝ) < t := by
        have h6 : (116 * (0.206893 : ℝ) - 16) / 903.3 < t := by
          have h7 : 116 * ((903.3 * t + 16) / 116) = 903.3 * t + 16 := by ring
          nlinarith [he1]
        have h8 : (0.00885594 : ℝ) ≤ (116 * (0.206893 : ℝ) - 16) / 903.3 := by norm_num
        linarith
      rw [abs_le]
      constructor
      · linarith
      · linarith
    · rw [if_neg hcube]
      have h9 : (116 * ((903.3 * t + 16) / 116) - 16) / 903.3 = t := by ring
      rw [h9, sub_self, abs_zero]
      norm_num

/-- Recovery of the y ratio through the transfer function and the inverse's
`L > κ·ε` test; same `1e-7` sliver as `inv_x_recovery`, here just above ε. -/
theorem inv_y_recovery (t : ℝ) (ht : 0 ≤ t) :
    |(if 116 * fR t - 16 > 903.3 * 0.008856 then ((116 * fR t - 16 + 16) / 116) ^ 3
        else (116 * fR t - 16) / 903.3) - t| ≤ 0.0000001 := by
  by_cases hte : t > 0.008856
  · have hf : fR t = t ^ ((1 : ℝ) / 3) := by
      simp only [fR]
      rw [if_pos hte]
    rw [hf]
    have hs0 : 0 ≤ t ^ ((1 : ℝ) / 3) := Real.rpow_nonneg ht _
    have hcube : (t ^ ((1 : ℝ) / 3)) ^ (3 : ℕ) = t := rpow_third_cube ht
    by_cases htest : 116 * t ^ ((1 : ℝ) / 3) - 16 > 903.3 * 0.008856
    · rw [if_pos htest, show ((116 * t ^ ((1 : ℝ) / 3) - 16 + 16) / 116 : ℝ)
        = t ^ ((1 : ℝ) / 3) by ring, hcube, sub_self, abs_zero]
      norm_num
    · rw [if_neg htest]
      push_neg at htest
      have hsq : t ^ ((1 : ℝ) / 3) ≤ (903.3 * 0.008856 + 16) / 116 := by linarith
      have ht_ub : t ≤ 0.00885604 := by
        have h2 := pow_le_pow_left hs0 hsq 3
        rw [hcube] at h2
        have h3 : (((903.3 : ℝ) * 0.008856 + 16) / 116) ^ 3 ≤ 0.00885604 := by norm_num
        linarith
      have hse : (0.206893 : ℝ) < t ^ ((1 : ℝ) / 3) := by
        by_contra hcon
        push_neg at hcon
        have h4 := pow_le_pow_left hs0 hcon 3
        rw [hcube] at h4
        have h5 : ((0.206893 : ℝ)) ^ 3 ≤ 0.008856 := by norm_num
        linarith
      rw [abs_le]
      constructor
      · norm_num
        linarith
      · norm_num
        linarith
  · push_neg at hte
    have hf : fR t = (903.3 * t + 16) / 116 := by
      simp only [fR]
      rw [if_neg (not_lt.mpr hte)]
    rw [hf, show (116 * ((903.3 * t + 16) / 116) - 16 : ℝ) = 903.3 * t by ring]
    rw [if_neg (by push_neg; linarith : ¬ (903.3 * t > 903.3 * 0.008856))]
    rw [show (903.3 * t / 903.3 : ℝ) = t by ring, sub_self, abs_zero]
    norm_num

theorem gammaDecode_mem (v : ℝ) (h0 : 0 ≤ v) (h1 : v ≤ 1) :
    0 ≤ gammaDecodeR v ∧ gammaDecodeR v ≤ 1 := by
  unfold gammaDecodeR
  by_cases hv : v > 0.04045
  · rw [if_pos hv]
    have hb0 : (0 : ℝ) ≤ (v + 0.055) / 1.055 := div_nonneg (by linarith) (by norm_num)
    refine ⟨Real.rpow_nonneg hb0 _, ?_⟩
    apply Real.rpow_le_one hb0 ?_ (by norm_num)
    rw [div_le_one (by norm_num : (0 : ℝ) < 1.055)]
    linarith
  · rw [if_neg hv]
    push_neg at hv
    refine ⟨div_nonneg h0 (by norm_num), ?_⟩
    norm_num
    linarith

theorem clamp01_error (y v : ℝ) (h0 : 0 ≤ v) (h1 : v ≤ 1) :
    |clamp01 y - v| ≤ |y - v| := by
  unfold clamp01
  rcases le_total y 0 with hy | hy
  · rw [max_eq_left hy, min_eq_right (by norm_num : (0 : ℝ) ≤ 1), zero_sub, abs_neg,
      abs_of_nonneg h0, abs_of_nonpos (by linarith)]
    linarith
  · rcases le_total 1 y with hy2 | hy2
    · rw [max_eq_right hy, min_eq_left hy2, abs_of_nonneg (by linarith),
        abs_of_nonneg (by linarith)]
      linarith
    · rw [max_eq_right hy, min_eq_right hy2]

set_option maxHeartbeats 1000000 in
/-- Two-point slope bound for `u ^ (1/2.4)` on the power branch: for
arguments at least `0.0031308` and at most `1e-6` apart, the increment of
the `5/12`-power is at most 14 times the increment of the argument
(the derivative there is below `12.8`). Proved algebraically through the
factorizations of `y₁¹² − y₂¹²` and `x₁⁵ − x₂⁵`. -/
theorem pow_pair_slope (x₂ x₁ y₂ y₁ w : ℝ)
    (hc : (0.0031308 : ℝ) ≤ x₂) (h21 : x₂ ≤ x₁) (hν : x₁ ≤ x₂ + 0.000001)
    (hy₂pos : 0 < y₂) (hy₁0 : 0 ≤ y₁) (hyy : y₂ ≤ y₁)
    (hy₁12 : y₁ ^ (12 : ℕ) = x₁ ^ (5 : ℕ)) (hy₂12 : y₂ ^ (12 : ℕ) = x₂ ^ (5 : ℕ))
    (hw : (0.0321 : ℝ) ≤ w) (hsplit : y₂ ^ (11 : ℕ) = x₂ ^ (4 : ℕ) * w) :
    y₁ - y₂ ≤ 14 * (x₁ - x₂) := by
  have hx₂0 : (0 : ℝ) < x₂ := lt_of_lt_of_le (by norm_num) hc
  have hx₁0 : (0 : ℝ) ≤ x₁ := le_trans hx₂0.le h21
  have hkey : (y₁ - y₂) * (y₁^11 + y₁^10*y₂ + y₁^9*y₂^2 + y₁^8*y₂^3 + y₁^7*y₂^4 +
        y₁^6*y₂^5 + y₁^5*y₂^6 + y₁^4*y₂^7 + y₁^3*y₂^8 + y₁^2*y₂^9 + y₁*y₂^10 + y₂^11)
      = (x₁ - x₂) * (x₁^4 + x₁^3*x₂ + x₁^2*x₂^2 + x₁*x₂^3 + x₂^4) := by
    have e1 : (y₁ - y₂) * (y₁^11 + y₁^10*y₂ + y₁^9*y₂^2 + y₁^8*y₂^3 + y₁^7*y₂^4 +
          y₁^6*y₂^5 + y₁^5*y₂^6 + y₁^4*y₂^7 + y₁^3*y₂^8 + y₁^2*y₂^9 + y₁*y₂^10 + y₂^11)
        = y₁ ^ (12 : ℕ) - y₂ ^ (12 : ℕ) := by ring
    have e2 : (x₁ - x₂) * (x₁^4 + x₁^3*x₂ + x₁^2*x₂^2 + x₁*x₂^3 + x₂^4)
        = x₁ ^ (5 : ℕ) - x₂ ^ (5 : ℕ) := by ring
    rw [e1, e2, hy₁12, hy₂12]
  have bgen : ∀ k : ℕ, k ≤ 11 → y₂^11 ≤ y₁^k * y₂^(11 - k) := by
    intro k hk
    have hb := mul_le_mul_of_nonneg_right (pow_le_pow_left hy₂pos.le hyy k)
      (pow_nonneg hy₂pos.le (11 - k))
    calc y₂^11 = y₂^k * y₂^(11 - k) := by rw [← pow_add]; congr 1; omega
    _ ≤ y₁^k * y₂^(11 - k) := hb
  have hS : 12 * y₂^11 ≤ y₁^11 + y₁^10*y₂ + y₁^9*y₂^2 + y₁^8*y₂^3 + y₁^7*y₂^4 +
      y₁^6*y₂^5 + y₁^5*y₂^6 + y₁^4*y₂^7 + y₁^3*y₂^8 + y₁^2*y₂^9 + y₁*y₂^10 + y₂^11 := by
    have b1 := bgen 11 (by norm_num)
    have b2 := bgen 10 (by norm_num)
    have b3 := bgen 9 (by norm_num)
    have b4 := bgen 8 (by norm_num)
    have b5 := bgen 7 (by norm_num)
    have b6 := bgen 6 (by norm_num)
    have b7 := bgen 5 (by norm_num)
    have b8 := bgen 4 (by norm_num)
    have b9 := bgen 3 (by norm_num)
    have b10 := bgen 2 (by norm_num)
    have b11 := bgen 1 (by norm_num)
    norm_num at b1 b2 b3 b4 b5 b6 b7 b8 b9 b10 b11
    nlinarith [b1, b2, b3, b4, b5, b6, b7, b8, b9, b10, b11]
  have hT : x₁^4 + x₁^3*x₂ + x₁^2*x₂^2 + x₁*x₂^3 + x₂^4 ≤ 5 * x₁^4 := by
    have c1 : x₁^3*x₂ ≤ x₁^4 := by
      have := mul_le_mul_of_nonneg_left h21 (pow_nonneg hx₁0 3)
      calc x₁^3*x₂ ≤ x₁^3*x₁ := this
      _ = x₁^4 := by ring
    have c2 : x₁^2*x₂^2 ≤ x₁^4 := by
      have := mul_le_mul_of_nonneg_left (pow_le_pow_left hx₂0.le h21 2) (pow_nonneg hx₁0 2)
      calc x₁^2*x₂^2 ≤ x₁^2*x₁^2 := this
      _ = x₁^4 := by ring
    have c3 : x₁*x₂^3 ≤ x₁^4 := by
      have := mul_le_mul_of_nonneg_left (pow_le_pow_left hx₂0.le h21 3) hx₁0
      calc x₁*x₂^3 ≤ x₁*x₁^3 := this
      _ = x₁^4 := by ring
    have c4 : x₂^4 ≤ x₁^4 := pow_le_pow_left hx₂0.le h21 4
    linarith
  have hrel : x₁ ≤ 1.00032 * x₂ := by nlinarith [hc, hν]
  have hx₁4 : x₁^4 ≤ 1.00129 * x₂^4 := by
    have h4 := pow_le_pow_left hx₁0 hrel 4
    rw [mul_pow] at h4
    have h5 : ((1.00032 : ℝ))^4 ≤ 1.00129 := by norm_num
    nlinarith [pow_nonneg hx₂0.le 4]
  have hTS : x₁^4 + x₁^3*x₂ + x₁^2*x₂^2 + x₁*x₂^3 + x₂^4
      ≤ 14 * (y₁^11 + y₁^10*y₂ + y₁^9*y₂^2 + y₁^8*y₂^3 + y₁^7*y₂^4 + y₁^6*y₂^5 +
        y₁^5*y₂^6 + y₁^4*y₂^7 + y₁^3*y₂^8 + y₁^2*y₂^9 + y₁*y₂^10 + y₂^11) := by
    have hx4pos : (0 : ℝ) ≤ x₂ ^ (4 : ℕ) := pow_nonneg hx₂0.le 4
    have hstep : 5 * 1.00129 * x₂^4 ≤ 14 * 12 * (x₂ ^ (4 : ℕ) * w) := by
      have h6 := mul_le_mul_of_nonneg_right hw hx4pos
      nlinarith [h6, hx4pos]
    have hS2 : 12 * (x₂ ^ (4 : ℕ) * w) ≤ y₁^11 + y₁^10*y₂ + y₁^9*y₂^2 + y₁^8*y₂^3 +
        y₁^7*y₂^4 + y₁^6*y₂^5 + y₁^5*y₂^6 + y₁^4*y₂^7 + y₁^3*y₂^8 + y₁^2*y₂^9 +
        y₁*y₂^10 + y₂^11 := by
      rw [← hsplit]
      exact hS
    linarith [hT, hx₁4, hS2, hstep]
  by_contra hcon
  push_neg at hcon
  have hSpos : 0 < y₁^11 + y₁^10*y₂ + y₁^9*y₂^2 + y₁^8*y₂^3 + y₁^7*y₂^4 + y₁^6*y₂^5 +
      y₁^5*y₂^6 + y₁^4*y₂^7 + y₁^3*y₂^8 + y₁^2*y₂^9 + y₁*y₂^10 + y₂^11 := by
    have h6 : (0 : ℝ) < 12 * y₂^11 := by positivity
    linarith
  have h1 := mul_le_mul_of_nonneg_left hTS (sub_nonneg.mpr h21)
  have h2 := mul_lt_mul_of_pos_right hcon hSpos
  nlinarith [hkey, h1, h2]

/-- Two-point slope bound for `u ^ (1/2.4)`, rpow form. -/
theorem rpow_inv24_pair (x₂ x₁ : ℝ) (hc : (0.0031308 : ℝ) ≤ x₂) (h21 : x₂ ≤ x₁)
    (hν : x₁ ≤ x₂ + 0.000001) :
    x₁ ^ ((1 : ℝ) / 2.4) - x₂ ^ ((1 : ℝ) / 2.4) ≤ 14 * (x₁ - x₂) := by
  rw [show ((1 : ℝ) / 2.4) = (5 : ℝ) / 12 by norm_num]
  have hx₂0 : (0 : ℝ) < x₂ := lt_of_lt_of_le (by norm_num) hc
  have hx₁0 : (0 : ℝ) ≤ x₁ := le_trans hx₂0.le h21
  have h12 : ∀ x : ℝ, 0 ≤ x → (x ^ ((5 : ℝ) / 12)) ^ (12 : ℕ) = x ^ (5 : ℕ) := by
    intro x hx
    rw [← Real.rpow_natCast x 5, ← Real.rpow_natCast (x ^ ((5 : ℝ) / 12)) 12,
      ← Real.rpow_mul hx]
    norm_num
  have h7_12 : (0.0321 : ℝ) ≤ x₂ ^ ((7 : ℝ) / 12) := by
    have hA : (0.0321 : ℝ) ≤ (0.0031308 : ℝ) ^ ((7 : ℝ) / 12) := by
      apply rpow_div_nat_le 7 12 (by norm_num) (by norm_num) (by norm_num)
      norm_num
    have hmono : (0.0031308 : ℝ) ^ ((7 : ℝ) / 12) ≤ x₂ ^ ((7 : ℝ) / 12) :=
      Real.rpow_le_rpow (by norm_num) hc (by norm_num)
    linarith
  have hsplit : (x₂ ^ ((5 : ℝ) / 12)) ^ (11 : ℕ) = x₂ ^ (4 : ℕ) * x₂ ^ ((7 : ℝ) / 12) := by
    have e3 : (x₂ ^ ((5 : ℝ) / 12)) ^ (11 : ℕ) = x₂ ^ ((55 : ℝ) / 12) := by
      rw [← Real.rpow_natCast (x₂ ^ ((5 : ℝ) / 12)) 11, ← Real.rpow_mul hx₂0.le]
      norm_num
    rw [e3, show ((55 : ℝ) / 12) = (4 : ℝ) + (7 : ℝ) / 12 by norm_num,
      Real.rpow_add hx₂0, ← Real.rpow_natCast x₂ 4]
    norm_num
  exact pow_pair_slope x₂ x₁ (x₂ ^ ((5 : ℝ) / 12)) (x₁ ^ ((5 : ℝ) / 12))
    (x₂ ^ ((7 : ℝ) / 12)) hc h21 hν (Real.rpow_pos_of_pos hx₂0 _)
    (Real.rpow_nonneg hx₁0 _) (Real.rpow_le_rpow hx₂0.le h21 (by norm_num))
    (h12 x₁ hx₁0) (h12 x₂ hx₂0.le) h7_12 hsplit

/-- Two-point bound for the gamma encode: for arguments at most `1e-6`
apart, the outputs differ by at most `0.000215` (slope ≤ 14.8 on either
branch, plus the ~3e-5 branch mismatch around the 0.0031308 joint). -/
theorem gammaEncode_pair (u₂ u₁ : ℝ) (h21 : u₂ ≤ u₁) (hν : u₁ ≤ u₂ + 0.000001) :
    |gammaEncodeR u₁ - gammaEncodeR u₂| ≤ 0.000215 := by
  unfold gammaEncodeR
  by_cases h₁ : u₁ > 0.0031308
  · by_cases h₂ : u₂ > 0.0031308
    · rw [if_pos h₁, if_pos h₂]
      have hmono : u₂ ^ ((1 : ℝ) / 2.4) ≤ u₁ ^ ((1 : ℝ) / 2.4) :=
        Real.rpow_le_rpow (by linarith) h21 (by norm_num)
      have hkey := rpow_inv24_pair u₂ u₁ h₂.le h21 hν
      rw [abs_of_nonneg (by linarith)]
      linarith
    · rw [if_pos h₁, if_neg h₂]
      push_neg at h₂
      have hu₁ub : u₁ ≤ 0.0031318 := by linarith
      have hA1 : (0.090473 : ℝ) ≤ u₁ ^ ((1 : ℝ) / 2.4) := by
        rw [show ((1 : ℝ) / 2.4) = (5 : ℝ) / 12 by norm_num]
        have ha := rpow_div_nat_le 5 12 (by norm_num : (0 : ℝ) ≤ 0.0031308)
          (by norm_num) (by norm_num)
          (by norm_num : ((0.090473 : ℝ)) ^ 12 ≤ ((0.0031308 : ℝ)) ^ 5)
        have hmono2 : (0.0031308 : ℝ) ^ ((5 : ℝ) / 12) ≤ u₁ ^ ((5 : ℝ) / 12) :=
          Real.rpow_le_rpow (by norm_num) h₁.le (by norm_num)
        linarith
      have hA2 : u₁ ^ ((1 : ℝ) / 2.4) ≤ 0.090486 := by
        rw [show ((1 : ℝ) / 2.4) = (5 : ℝ) / 12 by norm_num]
        have hmono3 : u₁ ^ ((5 : ℝ) / 12) ≤ (0.0031318 : ℝ) ^ ((5 : ℝ) / 12) :=
          Real.rpow_le_rpow (by linarith) hu₁ub (by norm_num)
        have hb := rpow_div_nat_ge 5 12 (by norm_num : (0 : ℝ) ≤ 0.0031318)
          (by norm_num) (by norm_num)
          (by norm_num : ((0.0031318 : ℝ)) ^ 5 ≤ ((0.090486 : ℝ)) ^ 12)
        linarith
      have hu₂lb : (0.0031298 : ℝ) ≤ u₂ := by linarith
      rw [abs_le]
      constructor
      · nlinarith [hA1, h₂]
      · nlinarith [hA2, hu₂lb]
  · rw [if_neg h₁]
    push_neg at h₁
    rw [if_neg (by push_neg; linarith : ¬ u₂ > 0.0031308)]
    rw [abs_of_nonneg (by linarith)]
    linarith

/-- The gamma encode inverts the gamma decode exactly on both branch
interiors and within `2e-4` on the tiny mismatch bands around the joint
(`0.04045/12.92 = 0.00313080495 > 0.0031308`). -/
theorem encode_decode (v : ℝ) (h0 : 0 ≤ v) (h1 : v ≤ 1) :
    |gammaEncodeR (gammaDecodeR v) - v| ≤ 0.0002 := by
  unfold gammaDecodeR
  by_cases hv : v > 0.04045
  · rw [if_pos hv]
    have hb0 : (0 : ℝ) ≤ (v + 0.055) / 1.055 := div_nonneg (by linarith) (by norm_num)
    have hb_lb : (0.0904739 : ℝ) < (v + 0.055) / 1.055 := by
      rw [lt_div_iff (by norm_num : (0 : ℝ) < 1.055)]
      linarith
    unfold gammaEncodeR
    by_cases hl : ((v + 0.055) / 1.055) ^ (2.4 : ℝ) > 0.0031308
    · rw [if_pos hl]
      have hrec : (((v + 0.055) / 1.055) ^ (2.4 : ℝ)) ^ ((1 : ℝ) / 2.4)
          = (v + 0.055) / 1.055 := by
        rw [← Real.rpow_mul hb0]
        norm_num
      rw [hrec, show (1.055 * ((v + 0.055) / 1.055) - 0.055 - v : ℝ) = 0 by ring,
        abs_zero]
      norm_num
    · rw [if_neg hl]
      push_neg at hl
      have hbase_eq : (((v + 0.055) / 1.055) ^ (2.4 : ℝ)) ^ ((5 : ℝ) / 12)
          = (v + 0.055) / 1.055 := by
        rw [← Real.rpow_mul hb0]
        norm_num
      have hbA : v ≤ 1.055 * 0.0904741 - 0.055 := by
        have hm : (((v + 0.055) / 1.055) ^ (2.4 : ℝ)) ^ ((5 : ℝ) / 12)
            ≤ (0.0031308 : ℝ) ^ ((5 : ℝ) / 12) :=
          Real.rpow_le_rpow (Real.rpow_nonneg hb0 _) hl (by norm_num)
        have hub := rpow_div_nat_ge 5 12 (by norm_num : (0 : ℝ) ≤ 0.0031308)
          (by norm_num) (by norm_num)
          (by norm_num : ((0.0031308 : ℝ)) ^ 5 ≤ ((0.0904741 : ℝ)) ^ 12)
        rw [hbase_eq] at hm
        have hb2 : (v + 0.055) / 1.055 ≤ 0.0904741 := by linarith
        rw [div_le_iff (by norm_num : (0 : ℝ) < 1.055)] at hb2
        linarith
      have hlinG : (0.00313079 : ℝ) ≤ ((v + 0.055) / 1.055) ^ (2.4 : ℝ) := by
        rw [show (2.4 : ℝ) = (12 : ℝ) / 5 by norm_num]
        have hG := rpow_div_nat_le 12 5 (by norm_num : (0 : ℝ) ≤ 0.0904739)
          (by norm_num) (by norm_num)
          (by norm_num : ((0.00313079 : ℝ)) ^ 5 ≤ ((0.0904739 : ℝ)) ^ 12)
        have hm2 : (0.0904739 : ℝ) ^ ((12 : ℝ) / 5)
            ≤ ((v + 0.055) / 1.055) ^ ((12 : ℝ) / 5) :=
          Real.rpow_le_rpow (by norm_num) hb_lb.le (by norm_num)
        linarith
      rw [abs_le]
      constructor
      · nlinarith [hlinG, hbA]
      · nlinarith [hl, hv]
  · rw [if_neg hv]
    push_neg at hv
    unfold gammaEncodeR
    by_cases hl : v / 12.92 > 0.0031308
    · rw [if_pos hl]
      have hub : v / 12.92 ≤ 0.04045 / 12.92 := by gcongr
      have ht5lb : (0.090473 : ℝ) ≤ (v / 12.92) ^ ((1 : ℝ) / 2.4) := by
        rw [show ((1 : ℝ) / 2.4) = (5 : ℝ) / 12 by norm_num]
        have ha := rpow_div_nat_le 5 12 (by norm_num : (0 : ℝ) ≤ 0.0031308)
          (by norm_num) (by norm_num)
          (by norm_num : ((0.090473 : ℝ)) ^ 12 ≤ ((0.0031308 : ℝ)) ^ 5)
        have hm : (0.0031308 : ℝ) ^ ((5 : ℝ) / 12) ≤ (v / 12.92) ^ ((5 : ℝ) / 12) :=
          Real.rpow_le_rpow (by norm_num) hl.le (by norm_num)
        linarith
      have ht5ub : (v / 12.92) ^ ((1 : ℝ) / 2.4) ≤ 0.0904741 := by
        rw [show ((1 : ℝ) / 2.4) = (5 : ℝ) / 12 by norm_num]
        have hm : (v / 12.92) ^ ((5 : ℝ) / 12) ≤ ((0.04045 : ℝ) / 12.92) ^ ((5 : ℝ) / 12) :=
          Real.rpow_le_rpow (le_trans (by norm_num) hl.le) hub (by norm_num)
        have hb := rpow_div_nat_ge 5 12 (by positivity)
          (by norm_num) (by norm_num)
          (by norm_num : (((0.04045 : ℝ)) / 12.92) ^ 5 ≤ ((0.0904741 : ℝ)) ^ 12)
        linarith
      have hvlb : 0.0031308 * 12.92 < v := by
        rw [gt_iff_lt, lt_div_iff (by norm_num : (0 : ℝ) < 12.92)] at hl
        exact hl
      rw [abs_le]
      constructor
      · nlinarith [ht5lb, hv]
      · nlinarith [ht5ub, hvlb]
    · rw [if_neg hl, show (12.92 * (v / 12.92) - v : ℝ) = 0 by ring, abs_zero]
      norm_num

/-- Per-channel round trip: if `u` is within `1e-6` of the gamma decode of
an in-range channel value `v`, then clamping the gamma encode of `u`
reproduces `v` within `1/1000`. -/
theorem channel_roundtrip (v u : ℝ) (h0 : 0 ≤ v) (h1 : v ≤ 1)
    (hu : |u - gammaDecodeR v| ≤ 0.000001) :
    |clamp01 (gammaEncodeR u) - v| ≤ 1 / 1000 := by
  have hdec := encode_decode v h0 h1
  have hclamp := clamp01_error (gammaEncodeR u) v h0 h1
  have hpair : |gammaEncodeR u - gammaEncodeR (gammaDecodeR v)| ≤ 0.000215 := by
    rw [abs_le] at hu
    rcases le_total u (gammaDecodeR v) with hc | hc
    · have h2 := gammaEncode_pair u (gammaDecodeR v) hc (by linarith [hu.1])
      rw [abs_sub_comm]
      exact h2
    · exact gammaEncode_pair (gammaDecodeR v) u hc (by linarith [hu.2])
  have htri := abs_sub_le (gammaEncodeR u) (gammaEncodeR (gammaDecodeR v)) v
  have hfin : |gammaEncodeR u - v| ≤ 0.000415 := by linarith
  calc |clamp01 (gammaEncodeR u) - v| ≤ |gammaEncodeR u - v| := hclamp
  _ ≤ 0.000415 := hfin
  _ ≤ 1 / 1000 := by norm_num

theorem labFy_of_rgb (rgb : ℝ × ℝ × ℝ) :
    labFy (rgb_to_lab_real rgb) = fR (fwdY rgb / 1.00000) := by
  show (116 * fR (fwdY rgb / 1.00000) - 16 + 16) / 116 = fR (fwdY rgb / 1.00000)
  ring

theorem labFx_of_rgb (rgb : ℝ × ℝ × ℝ) :
    labFx (rgb_to_lab_real rgb) = fR (fwdX rgb / 0.95047) := by
  show 500 * (fR (fwdX rgb / 0.95047) - fR (fwdY rgb / 1.00000)) / 500 +
      (116 * fR (fwdY rgb / 1.00000) - 16 + 16) / 116 = fR (fwdX rgb / 0.95047)
  ring

theorem labFz_of_rgb (rgb : ℝ × ℝ × ℝ) :
    labFz (rgb_to_lab_real rgb) = fR (fwdZ rgb / 1.08883) := by
  show (116 * fR (fwdY rgb / 1.00000) - 16 + 16) / 116 -
      200 * (fR (fwdY rgb / 1.00000) - fR (fwdZ rgb / 1.08883)) / 200
      = fR (fwdZ rgb / 1.08883)
  ring

/-- First inverse-matrix row: with gamma-decoded channels in `[0,1]` and XYZ
coordinates perturbed by less than `1.1e-7`, the recovered linear red is
within `1e-6` of the original (row of `M⁻¹·M − I` has absolute sum
`2.76e-7`). -/
theorem matrix_row1 (dr dg db X Y Z : ℝ)
    (hdr0 : 0 ≤ dr) (hdr1 : dr ≤ 1) (hdg0 : 0 ≤ dg) (hdg1 : dg ≤ 1)
    (hdb0 : 0 ≤ db) (hdb1 : db ≤ 1)
    (hX : |X - (0.4124564 * dr + 0.3575761 * dg + 0.1804375 * db)| ≤ 0.000000096)
    (hY : |Y - (0.2126729 * dr + 0.7151522 * dg + 0.0721750 * db)| ≤ 0.0000001)
    (hZ : |Z - (0.0193339 * dr + 0.1191920 * dg + 0.9503041 * db)| ≤ 0.00000011) :
    |3.2404542 * X - 1.5371385 * Y - 0.4985314 * Z - dr| ≤ 0.000001 := by
  rw [abs_le] at hX hY hZ ⊢
  constructor
  · nlinarith [hX.1, hY.2, hZ.2, hdr1, hdg0, hdg1, hdb0, hdb1]
  · nlinarith [hX.2, hY.1, hZ.1, hdr0, hdg0, hdg1, hdb0, hdb1]

/-- Second inverse-matrix row (green), same error budget. -/
theorem matrix_row2 (dr dg db X Y Z : ℝ)
    (hdr0 : 0 ≤ dr) (hdr1 : dr ≤ 1) (hdg0 : 0 ≤ dg) (hdg1 : dg ≤ 1)
    (hdb0 : 0 ≤ db) (hdb1 : db ≤ 1)
    (hX : |X - (0.4124564 * dr + 0.3575761 * dg + 0.1804375 * db)| ≤ 0.000000096)
    (hY : |Y - (0.2126729 * dr + 0.7151522 * dg + 0.0721750 * db)| ≤ 0.0000001)
    (hZ : |Z - (0.0193339 * dr + 0.1191920 * dg + 0.9503041 * db)| ≤ 0.00000011) :
    |-0.9692660 * X + 1.8760108 * Y + 0.0415560 * Z - dg| ≤ 0.000001 := by
  rw [abs_le] at hX hY hZ ⊢
  constructor
  · nlinarith [hX.2, hY.1, hZ.1, hdr0, hdr1, hdg1, hdb0, hdb1]
  · nlinarith [hX.1, hY.2, hZ.2, hdr0, hdr1, hdg0, hdb0, hdb1]

/-- Third inverse-matrix row (blue), same error budget. -/
theorem matrix_row3 (dr dg db X Y Z : ℝ)
    (hdr0 : 0 ≤ dr) (hdr1 : dr ≤ 1) (hdg0 : 0 ≤ dg) (hdg1 : dg ≤ 1)
    (hdb0 : 0 ≤ db) (hdb1 : db ≤ 1)
    (hX : |X - (0.4124564 * dr + 0.3575761 * dg + 0.1804375 * db)| ≤ 0.000000096)
    (hY : |Y - (0.2126729 * dr + 0.7151522 * dg + 0.0721750 * db)| ≤ 0.0000001)
    (hZ : |Z - (0.0193339 * dr + 0.1191920 * dg + 0.9503041 * db)| ≤ 0.00000011) :
    |0.0556434 * X - 0.2040259 * Y + 1.0572252 * Z - db| ≤ 0.000001 := by
  rw [abs_le] at hX hY hZ ⊢
  constructor
  · nlinarith [hX.1, hY.2, hZ.2, hdr0, hdr1, hdg0, hdg1, hdb1]
  · nlinarith [hX.2, hY.1, hZ.1, hdr0, hdr1, hdg0, hdg1, hdb0]

/-- C2: in the exact-real shallow embedding of `generate_textures.py`,
`lab_to_rgb (rgb_to_lab rgb)` reproduces every in-gamut channel within the
spec's `1e-3` tolerance: the exact accumulated error (branch-constant
mismatch `((903.3·0.008856+16)/116)³ ≠ 0.008856`, decimally-rounded inverse
matrix, and the `0.04045/12.92` vs `0.0031308` gamma joint) is below
`4.2e-4` per channel. -/
theorem roundtrip_within_tolerance (r g b : ℝ)
    (hr0 : 0 ≤ r) (hr1 : r ≤ 1) (hg0 : 0 ≤ g) (hg1 : g ≤ 1)
    (hb0 : 0 ≤ b) (hb1 : b ≤ 1) :
    |(lab_to_rgb_real (rgb_to_lab_real (r, g, b))).1 - r| ≤ 1 / 1000 ∧
    |(lab_to_rgb_real (rgb_to_lab_real (r, g, b))).2.1 - g| ≤ 1 / 1000 ∧
    |(lab_to_rgb_real (rgb_to_lab_real (r, g, b))).2.2 - b| ≤ 1 / 1000 := by
  obtain ⟨hdr0, hdr1⟩ := gammaDecode_mem r hr0 hr1
  obtain ⟨hdg0, hdg1⟩ := gammaDecode_mem g hg0 hg1
  obtain ⟨hdb0, hdb1⟩ := gammaDecode_mem b hb0 hb1
  have hfX : fwdX (r, g, b) = 0.4124564 * gammaDecodeR r + 0.3575761 * gammaDecodeR g +
      0.1804375 * gammaDecodeR b := rfl
  have hfY : fwdY (r, g, b) = 0.2126729 * gammaDecodeR r + 0.7151522 * gammaDecodeR g +
      0.0721750 * gammaDecodeR b := rfl
  have hfZ : fwdZ (r, g, b) = 0.0193339 * gammaDecodeR r + 0.1191920 * gammaDecodeR g +
      0.9503041 * gammaDecodeR b := rfl
  have hX0 : 0 ≤ fwdX (r, g, b) := by rw [hfX]; linarith
  have hY0 : 0 ≤ fwdY (r, g, b) := by rw [hfY]; linarith
  have hZ0 : 0 ≤ fwdZ (r, g, b) := by rw [hfZ]; linarith
  have hxr0 : 0 ≤ fwdX (r, g, b) / 0.95047 := div_nonneg hX0 (by norm_num)
  have hyr0 : 0 ≤ fwdY (r, g, b) / 1.00000 := div_nonneg hY0 (by norm_num)
  have hzr0 : 0 ≤ fwdZ (r, g, b) / 1.08883 := div_nonneg hZ0 (by norm_num)
  have hrecX : |invXr (rgb_to_lab_real (r, g, b)) - fwdX (r, g, b) / 0.95047|
      ≤ 0.0000001 := by
    have h := inv_x_recovery (fwdX (r, g, b) / 0.95047) hxr0
    simp only [invXr, labFx_of_rgb]
    exact h
  have hL1 : (rgb_to_lab_real (r, g, b)).1 = 116 * fR (fwdY (r, g, b) / 1.00000) - 16 := rfl
  have hrecY : |invYr (rgb_to_lab_real (r, g, b)) - fwdY (r, g, b) / 1.00000|
      ≤ 0.0000001 := by
    have h := inv_y_recovery (fwdY (r, g, b) / 1.00000) hyr0
    simp only [invYr, hL1]
    exact h
  have hrecZ : |invZr (rgb_to_lab_real (r, g, b)) - fwdZ (r, g, b) / 1.08883|
      ≤ 0.0000001 := by
    have h := inv_x_recovery (fwdZ (r, g, b) / 1.08883) hzr0
    simp only [invZr, labFz_of_rgb]
    exact h
  have hεX : |invXr (rgb_to_lab_real (r, g, b)) * 0.95047 - fwdX (r, g, b)|
      ≤ 0.000000096 := by
    have h1 : invXr (rgb_to_lab_real (r, g, b)) * 0.95047 - fwdX (r, g, b)
        = 0.95047 * (invXr (rgb_to_lab_real (r, g, b)) - fwdX (r, g, b) / 0.95047) := by
      ring
    rw [h1, abs_mul, abs_of_pos (show (0 : ℝ) < 0.95047 by norm_num)]
    have h2 := mul_le_mul_of_nonneg_left hrecX (show (0 : ℝ) ≤ 0.95047 by norm_num)
    linarith
  have hεY : |invYr (rgb_to_lab_real (r, g, b)) * 1.00000 - fwdY (r, g, b)|
      ≤ 0.0000001 := by
    have h1 : invYr (rgb_to_lab_real (r, g, b)) * 1.00000 - fwdY (r, g, b)
        = 1.00000 * (invYr (rgb_to_lab_real (r, g, b)) - fwdY (r, g, b) / 1.00000) := by
      ring
    rw [h1, abs_mul, abs_of_pos (show (0 : ℝ) < 1.00000 by norm_num)]
    have h2 := mul_le_mul_of_nonneg_left hrecY (show (0 : ℝ) ≤ 1.00000 by norm_num)
    linarith
  have hεZ : |invZr (rgb_to_lab_real (r, g, b)) * 1.08883 - fwdZ (r, g, b)|
      ≤ 0.00000011 := by
    have h1 : invZr (rgb_to_lab_real (r, g, b)) * 1.08883 - fwdZ (r, g, b)
        = 1.08883 * (invZr (rgb_to_lab_real (r, g, b)) - fwdZ (r, g, b) / 1.08883) := by
      ring
    rw [h1, abs_mul, abs_of_pos (show (0 : ℝ) < 1.08883 by norm_num)]
    have h2 := mul_le_mul_of_nonneg_left hrecZ (show (0 : ℝ) ≤ 1.08883 by norm_num)
    linarith
  rw [hfX] at hεX
  rw [hfY] at hεY
  rw [hfZ] at hεZ
  have hargR := matrix_row1 (gammaDecodeR r) (gammaDecodeR g) (gammaDecodeR b)
    (invXr (rgb_to_lab_real (r, g, b)) * 0.95047)
    (invYr (rgb_to_lab_real (r, g, b)) * 1.00000)
    (invZr (rgb_to_lab_real (r, g, b)) * 1.08883)
    hdr0 hdr1 hdg0 hdg1 hdb0 hdb1 hεX hεY hεZ
  have hargG := matrix_row2 (gammaDecodeR r) (gammaDecodeR g) (gammaDecodeR b)
    (invXr (rgb_to_lab_real (r, g, b)) * 0.95047)
    (invYr (rgb_to_lab_real (r, g, b)) * 1.00000)
    (invZr (rgb_to_lab_real (r, g, b)) * 1.08883)
    hdr0 hdr1 hdg0 hdg1 hdb0 hdb1 hεX hεY hεZ
  have hargB := matrix_row3 (gammaDecodeR r) (gammaDecodeR g) (gammaDecodeR b)
    (invXr (rgb_to_lab_real (r, g, b)) * 0.95047)
    (invYr (rgb_to_lab_real (r, g, b)) * 1.00000)
    (invZr (rgb_to_lab_real (r, g, b)) * 1.08883)
    hdr0 hdr1 hdg0 hdg1 hdb0 hdb1 hεX hεY hεZ
  refine ⟨?_, ?_, ?_⟩
  · have hproj : (lab_to_rgb_real (rgb_to_lab_real (r, g, b))).1
        = clamp01 (gammaEncodeR (3.2404542 * (invXr (rgb_to_lab_real (r, g, b)) * 0.95047) -
          1.5371385 * (invYr (rgb_to_lab_real (r, g, b)) * 1.00000) -
          0.4985314 * (invZr (rgb_to_lab_real (r, g, b)) * 1.08883))) := rfl
    rw [hproj]
    exact channel_roundtrip r _ hr0 hr1 hargR
  · have hproj : (lab_to_rgb_real (rgb_to_lab_real (r, g, b))).2.1
        = clamp01 (gammaEncodeR (-0.9692660 * (invXr (rgb_to_lab_real (r, g, b)) * 0.95047) +
          1.8760108 * (invYr (rgb_to_lab_real (r, g, b)) * 1.00000) +
          0.0415560 * (invZr (rgb_to_lab_real (r, g, b)) * 1.08883))) := rfl
    rw [hproj]
    exact channel_roundtrip g _ hg0 hg1 hargG
  · have hproj : (lab_to_rgb_real (rgb_to_lab_real (r, g, b))).2.2
        = clamp01 (gammaEncodeR (0.0556434 * (invXr (rgb_to_lab_real (r, g, b)) * 0.95047) -
          0.2040259 * (invYr (rgb_to_lab_real (r, g, b)) * 1.00000) +
          1.0572252 * (invZr (rgb_to_lab_real (r, g, b)) * 1.08883))) := rfl
    rw [hproj]
    exact channel_roundtrip b _ hb0 hb1 hargB

/-- Witness for C2 at the mid-gray input `(1/2, 1/2, 1/2)`. -/
theorem roundtrip_within_tolerance_witness :
    ((0 : ℝ) ≤ 1 / 2 ∧ (1 / 2 : ℝ) ≤ 1) ∧
    (|(lab_to_rgb_real (rgb_to_lab_real ((1 : ℝ) / 2, 1 / 2, 1 / 2))).1 - 1 / 2| ≤ 1 / 1000 ∧
      |(lab_to_rgb_real (rgb_to_lab_real ((1 : ℝ) / 2, 1 / 2, 1 / 2))).2.1 - 1 / 2| ≤ 1 / 1000 ∧
      |(lab_to_rgb_real (rgb_to_lab_real ((1 : ℝ) / 2, 1 / 2, 1 / 2))).2.2 - 1 / 2| ≤ 1 / 1000) :=
  ⟨⟨by norm_num, by norm_num⟩,
    roundtrip_within_tolerance (1 / 2) (1 / 2) (1 / 2) (by norm_num) (by norm_num)
      (by norm_num) (by norm_num) (by norm_num) (by norm_num)⟩

end ColorPipeline
